import Mathlib

/-!
Verification of the exercise generator (`bin/new-ex.py`): a shallow embedding
of its configuration parser, template renderer, package-path remapper and
collision-free slug suggestion, together with theorems about the behaviour
claimed in the specification.

Strings are modelled as `List Char` (a `Line`); documents are lists of lines,
mirroring Python's `str.splitlines`.  File-system state is modelled as a list
of (path, content) pairs, where a path is a list of name segments.
-/

namespace NewEx

/-- A Python string, modelled as a list of characters. -/
abbrev Line := List Char

/-- The characters Python's default `str.strip` / `str.lstrip` remove. -/
def isPySpace (c : Char) : Bool :=
  c = ' ' || c = '\t' || c = '\n' || c = '\r' || c = '\x0b' || c = '\x0c'

/-- Python `str.lstrip()` (no argument: strips whitespace). -/
def pyLStrip (l : Line) : Line := l.dropWhile isPySpace

/-- Python `str.rstrip()` (no argument: strips whitespace). -/
def pyRStrip (l : Line) : Line := (l.reverse.dropWhile isPySpace).reverse

/-- Python `str.strip()` (no argument: strips whitespace from both ends). -/
def pyStrip (l : Line) : Line := pyRStrip (pyLStrip l)

/-- `len(line) - len(line.lstrip(" "))`: the number of leading space characters. -/
def indentOf (l : Line) : Nat := (l.takeWhile (· = ' ')).length

/-- Python `s.rstrip("\n")`: strip trailing newline characters only. -/
def rstripNL (l : Line) : Line := (l.reverse.dropWhile (· = '\n')).reverse

/-- Python `"\n".join(lines)`. -/
def joinNL (ls : List Line) : Line := List.intercalate ['\n'] ls

/-- Decimal rendering with explicit fuel (structural recursion, so that
concrete values reduce). -/
def natToCharsAux : Nat → Nat → Line
  | 0, _ => []
  | fuel + 1, n =>
    if n < 10 then [Char.ofNat (48 + n)]
    else natToCharsAux fuel (n / 10) ++ [Char.ofNat (48 + n % 10)]

/-- Decimal rendering of a natural number, as Python's `f"{i}"` produces it. -/
def natToChars (n : Nat) : Line := natToCharsAux (n + 1) n

/-- Decimal decoding, the left inverse of `natToChars` (and the model of
Python's `int()` on a digit string, leading zeros allowed). -/
def decodeDigits (l : Line) : Nat := l.foldl (fun a c => a * 10 + (c.toNat - 48)) 0

theorem toNat_ofNat_small : ∀ m < 60, (Char.ofNat m).toNat = m := by decide

theorem decodeDigits_append (l : Line) (c : Char) :
    decodeDigits (l ++ [c]) = (decodeDigits l) * 10 + (c.toNat - 48) := by
  simp [decodeDigits, List.foldl_append]

theorem decodeDigits_natToCharsAux :
    ∀ fuel n, n < fuel → decodeDigits (natToCharsAux fuel n) = n := by
  intro fuel
  induction fuel with
  | zero => intro n h; omega
  | succ f ih =>
    intro n h
    rw [natToCharsAux]
    by_cases h10 : n < 10
    · simp only [h10, if_pos]
      simp [decodeDigits, toNat_ofNat_small (48 + n) (by omega)]
    · simp only [h10, if_neg, not_false_iff]
      rw [decodeDigits_append, ih (n / 10) (by omega),
        toNat_ofNat_small (48 + n % 10) (by omega)]
      omega

theorem decodeDigits_natToChars (n : Nat) : decodeDigits (natToChars n) = n :=
  decodeDigits_natToCharsAux (n + 1) n (by omega)

theorem natToChars_injective : Function.Injective natToChars := by
  intro a b h
  have := decodeDigits_natToChars a
  rw [h, decodeDigits_natToChars] at this
  omega

/-- The name `f"{base}-v{i}"` probed by the collision loop. -/
def vName (base : Line) (i : Nat) : Line := base ++ ['-', 'v'] ++ natToChars i

theorem vName_injective (base : Line) : Function.Injective (vName base) := by
  intro a b h
  exact natToChars_injective (List.append_cancel_left h)

/-- Decomposition performed by `re.match(r"^(.*?)-v(\d+)$", slug)`.

The regex matches iff `slug = base ++ "-v" ++ ds` with `ds` a non-empty run of
digits ending the string.  Such a decomposition is unique when it exists: `ds`
must be the *maximal* digit suffix (a shorter digit suffix would force the
character before it, a digit, to be `v`).  Returns the pair
`(base, start)` used by `suggest_collision_free_slug`: on a match
`(base, N + 1)`, otherwise `(slug, 2)`. -/
def slugSplit (slug : Line) : Line × Nat :=
  let ds := (slug.reverse.takeWhile Char.isDigit).reverse
  let rest := slug.take (slug.length - ds.length)
  if ds ≠ [] ∧ rest.reverse.take 2 = ['v', '-'] then
    (rest.take (rest.length - 2), decodeDigits ds + 1)
  else
    (slug, 2)

/-- One file of the repository tree: its path (as name segments, relative to
the repository root) and its text content.  Directories exist implicitly as
the proper prefixes of file paths. -/
structure FS where
  files : List (List Line × Line)
deriving DecidableEq

/-- `Path(...).exists()` for a path of segments: some file lies at the path or
strictly below it. -/
def pathExists (fs : FS) (p : List Line) : Bool :=
  fs.files.any fun f => p.isPrefixOf f.1

/-- `(EXERCISES / name).exists()`. -/
def exercise_exists (fs : FS) (n : Line) : Bool :=
  pathExists fs ["exercises".toList, n]

/-- The `while (EXERCISES / f"{base}-v{i}").exists(): i += 1` loop, with
explicit fuel.  `suggest_collision_free_slug` runs it with fuel
`fs.files.length + 1`, which always suffices (`exists_free_in_window`). -/
def searchFree (fs : FS) (base : Line) : Nat → Nat → Nat
  | 0, i => i
  | fuel + 1, i =>
    if exercise_exists fs (vName base i) then searchFree fs base fuel (i + 1) else i

/-- `suggest_collision_free_slug(slug)` from `bin/new-ex.py`, with the
file-system state made explicit. -/
def suggest_collision_free_slug (fs : FS) (slug : Line) : Line :=
  let p := slugSplit slug
  vName p.1 (searchFree fs p.1 (fs.files.length + 1) p.2)

theorem searchFree_le (fs : FS) (base : Line) :
    ∀ fuel i, i ≤ searchFree fs base fuel i := by
  intro fuel
  induction fuel with
  | zero => intro i; simp [searchFree]
  | succ n ih =>
    intro i
    rw [searchFree]
    split
    · exact le_trans (Nat.le_succ i) (ih (i + 1))
    · exact le_refl i

theorem searchFree_taken (fs : FS) (base : Line) :
    ∀ fuel i m, i ≤ m → m < searchFree fs base fuel i →
      exercise_exists fs (vName base m) = true := by
  intro fuel
  induction fuel with
  | zero => intro i m him hm; simp [searchFree] at hm; omega
  | succ n ih =>
    intro i m him hm
    rw [searchFree] at hm
    by_cases h : exercise_exists fs (vName base i) = true
    · rw [if_pos h] at hm
      rcases Nat.eq_or_lt_of_le him with rfl | hlt
      · exact h
      · exact ih (i + 1) m hlt hm
    · rw [if_neg h] at hm; omega

theorem searchFree_free (fs : FS) (base : Line) :
    ∀ fuel i, (∃ j, j < fuel ∧ exercise_exists fs (vName base (i + j)) = false) →
      exercise_exists fs (vName base (searchFree fs base fuel i)) = false := by
  intro fuel
  induction fuel with
  | zero => intro i ⟨j, hj, _⟩; omega
  | succ n ih =>
    intro i ⟨j, hj, hfree⟩
    rw [searchFree]
    by_cases h : exercise_exists fs (vName base i) = true
    · rw [if_pos h]
      apply ih (i + 1)
      cases j with
      | zero => simp at hfree; rw [h] at hfree; cases hfree
      | succ j' =>
        refine ⟨j', by omega, ?_⟩
        have e : i + 1 + j' = i + (j' + 1) := by omega
        rw [e]
        exact hfree
    · rw [if_neg h]
      simpa using h

/-- An existing exercise name is the second segment of some file's path. -/
theorem exists_mem_secondSegs (fs : FS) (n : Line)
    (h : exercise_exists fs n = true) :
    n ∈ fs.files.filterMap (fun f => f.1.get? 1) := by
  simp only [exercise_exists, pathExists, List.any_eq_true] at h
  obtain ⟨f, hf, hpre⟩ := h
  rw [List.isPrefixOf_iff_prefix] at hpre
  obtain ⟨t, ht⟩ := hpre
  rw [List.mem_filterMap]
  exact ⟨f, hf, by rw [← ht]; rfl⟩

/-- Fuel `fs.files.length + 1` always suffices: some index in the window
`[start, start + fs.files.length]` is collision-free. -/
theorem exists_free_in_window (fs : FS) (base : Line) (start : Nat) :
    ∃ j, j < fs.files.length + 1 ∧
      exercise_exists fs (vName base (start + j)) = false := by
  by_contra hcon
  push_neg at hcon
  have hall : ∀ j, j < fs.files.length + 1 →
      exercise_exists fs (vName base (start + j)) = true := by
    intro j hj
    have := hcon j hj
    revert this
    cases exercise_exists fs (vName base (start + j)) <;> simp
  set L := (List.range (fs.files.length + 1)).map (fun j => vName base (start + j)) with hL
  have hnodup : L.Nodup := by
    apply List.Nodup.map _ (List.nodup_range _)
    intro a b hab
    have := vName_injective base hab
    omega
  have hsub : L ⊆ fs.files.filterMap (fun f => f.1.get? 1) := by
    intro x hx
    rw [hL, List.mem_map] at hx
    obtain ⟨j, hj, rfl⟩ := hx
    rw [List.mem_range] at hj
    exact exists_mem_secondSegs fs _ (hall j hj)
  have hlen : L.length ≤ (fs.files.filterMap (fun f => f.1.get? 1)).length :=
    (hnodup.subperm hsub).length_le
  have h1 : L.length = fs.files.length + 1 := by simp [hL]
  have h2 : (fs.files.filterMap (fun f => f.1.get? 1)).length ≤ fs.files.length :=
    List.length_filterMap_le _ _
  omega

/-- C4.  `suggest_collision_free_slug` is a pure, deterministic function of the
slug and the existing destination names: with `(base, start) = slugSplit slug`
(`start = N + 1` when the slug is `<base>-v<N>`, otherwise the base is the slug
itself and `start = 2`), the result is `<base>-v<k>` for the *first* `k ≥ start`
whose name does not exist; in particular `foo` with only `foo` existing yields
`foo-v2`, with `foo-v2` also existing yields `foo-v3`, and `foo-v3` existing
with input `foo-v3` yields `foo-v4`. -/
theorem c4_suggest_collision_free_slug :
    (∀ fs slug, ∃ k,
      suggest_collision_free_slug fs slug = vName (slugSplit slug).1 k ∧
      (slugSplit slug).2 ≤ k ∧
      exercise_exists fs (vName (slugSplit slug).1 k) = false ∧
      (∀ m, (slugSplit slug).2 ≤ m → m < k →
        exercise_exists fs (vName (slugSplit slug).1 m) = true)) ∧
    slugSplit "foo".toList = ("foo".toList, 2) ∧
    slugSplit "foo-v3".toList = ("foo".toList, 4) ∧
    suggest_collision_free_slug ⟨[(["exercises".toList, "foo".toList], [])]⟩
      "foo".toList = "foo-v2".toList ∧
    suggest_collision_free_slug ⟨[(["exercises".toList, "foo".toList], []),
      (["exercises".toList, "foo-v2".toList], [])]⟩
      "foo".toList = "foo-v3".toList ∧
    suggest_collision_free_slug ⟨[(["exercises".toList, "foo-v3".toList], [])]⟩
      "foo-v3".toList = "foo-v4".toList := by
  refine ⟨?_, by decide, by decide, by decide, by decide, by decide⟩
  intro fs slug
  refine ⟨searchFree fs (slugSplit slug).1 (fs.files.length + 1) (slugSplit slug).2,
    rfl, searchFree_le fs _ _ _, ?_, ?_⟩
  · exact searchFree_free fs _ _ _ (exists_free_in_window fs _ _)
  · intro m h1 h2
    exact searchFree_taken fs _ _ _ m h1 h2

/-- Closed instance of the C4 theorem at a concrete file system and slug. -/
theorem c4_suggest_collision_free_slug_witness :
    ∃ k,
      suggest_collision_free_slug ⟨[(["exercises".toList, "foo".toList], [])]⟩
          "foo".toList = vName (slugSplit "foo".toList).1 k ∧
      (slugSplit "foo".toList).2 ≤ k ∧
      exercise_exists ⟨[(["exercises".toList, "foo".toList], [])]⟩
          (vName (slugSplit "foo".toList).1 k) = false ∧
      (∀ m, (slugSplit "foo".toList).2 ≤ m → m < k →
        exercise_exists ⟨[(["exercises".toList, "foo".toList], [])]⟩
          (vName (slugSplit "foo".toList).1 m) = true) :=
  c4_suggest_collision_free_slug.1 ⟨[(["exercises".toList, "foo".toList], [])]⟩ "foo".toList

/-- `slug_to_pkg_segment(slug)` from `bin/new-ex.py`: drop every character that
is not an ASCII letter or digit, prefix `x` when the result is empty or does
not start with a letter, then lowercase. -/
def slug_to_pkg_segment (slug : Line) : Line :=
  let seg := slug.filter (fun c => c.isAlpha || c.isDigit)
  let seg2 := match seg with
    | [] => ['x']
    | c :: rest => if c.isAlpha then c :: rest else 'x' :: c :: rest
  seg2.map Char.toLower

/-- The opening brace character. -/
def lbrace : Char := Char.ofNat 123

/-- The closing brace character. -/
def rbrace : Char := Char.ofNat 125

/-- The placeholder spelling produced by the f-string in
`replace_tokens_in_text`: a dollar sign, an opening brace, the token name and
a closing brace. -/
def placeholder (k : Line) : Line := '$' :: lbrace :: (k ++ [rbrace])

/-- The scanning loop of Python's `str.replace`, with explicit fuel (one unit
per character consumed; `s.length` suffices for non-empty patterns). -/
def replaceGoAux (pat repl : Line) : Nat → Line → Line
  | 0, s => s
  | _ + 1, [] => []
  | fuel + 1, c :: t =>
    if pat.isPrefixOf (c :: t) then
      repl ++ replaceGoAux pat repl fuel ((c :: t).drop pat.length)
    else
      c :: replaceGoAux pat repl fuel t

/-- Python `content.replace(pat, repl)`: replace every occurrence, scanning
left to right without re-examining replaced text.  The empty-pattern case
(Python inserts `repl` between every pair of characters) is included for
faithfulness although no call site of the script uses it. -/
def replaceAll (pat repl s : Line) : Line :=
  if pat = [] then repl ++ s.flatMap (fun c => c :: repl)
  else replaceGoAux pat repl s.length s

/-- `replace_tokens_in_text(content, tokens)` from `bin/new-ex.py`: one
`str.replace` pass per token, in the order the tokens are listed. -/
def replace_tokens_in_text (content : Line) (tokens : List (Line × Line)) : Line :=
  tokens.foldl (fun c kv => replaceAll (placeholder kv.1) kv.2 c) content

theorem replaceGoAux_nil (pat repl : Line) (fuel : Nat) :
    replaceGoAux pat repl fuel [] = [] := by
  cases fuel <;> rfl

theorem replaceGoAux_fuel_eq (pat repl : Line) (hp : pat ≠ []) :
    ∀ fuel₁ fuel₂ s, s.length ≤ fuel₁ → s.length ≤ fuel₂ →
      replaceGoAux pat repl fuel₁ s = replaceGoAux pat repl fuel₂ s := by
  intro fuel₁
  induction fuel₁ with
  | zero =>
    intro fuel₂ s h1 _
    have : s = [] := List.length_eq_zero.mp (by omega)
    subst this
    rw [replaceGoAux_nil, replaceGoAux_nil]
  | succ f ih =>
    intro fuel₂ s h1 h2
    match s with
    | [] => rw [replaceGoAux_nil, replaceGoAux_nil]
    | c :: t =>
      match fuel₂ with
      | 0 => simp at h2
      | f₂ + 1 =>
        rw [replaceGoAux, replaceGoAux]
        by_cases hpre : pat.isPrefixOf (c :: t)
        · rw [if_pos hpre, if_pos hpre]
          have hlen : pat.length ≥ 1 := by
            cases pat with
            | nil => exact absurd rfl hp
            | cons a b => simp
          have hdl : ((c :: t).drop pat.length).length ≤ f := by
            simp only [List.length_drop, List.length_cons]
            simp only [List.length_cons] at h1
            omega
          have hdl2 : ((c :: t).drop pat.length).length ≤ f₂ := by
            simp only [List.length_drop, List.length_cons]
            simp only [List.length_cons] at h2
            omega
          rw [ih f₂ _ hdl hdl2]
        · rw [if_neg hpre, if_neg hpre]
          have ht1 : t.length ≤ f := by simp at h1; omega
          have ht2 : t.length ≤ f₂ := by simp at h2; omega
          rw [ih f₂ t ht1 ht2]

/-- Scanning a region with no `$` cannot match a pattern that starts with `$`:
the region is copied verbatim. -/
theorem replaceGoAux_clean (pat repl : Line) (p0 : Line)
    (hp : pat = '$' :: p0) :
    ∀ a s, (∀ c ∈ a, c ≠ '$') →
      replaceGoAux pat repl (a ++ s).length (a ++ s) =
        a ++ replaceGoAux pat repl s.length s := by
  intro a
  induction a with
  | nil => intro s _; simp
  | cons c a' ih =>
    intro s hclean
    have hc : c ≠ '$' := hclean c (by simp)
    have hstep : (c :: a' ++ s).length = (a' ++ s).length + 1 := by simp
    simp only [List.cons_append] at hstep ⊢
    rw [hstep, replaceGoAux]
    have hpre : pat.isPrefixOf (c :: (a' ++ s)) = false := by
      subst hp
      have hb : ('$' == c) = false := beq_eq_false_iff_ne.mpr (fun h => hc h.symm)
      simp [List.isPrefixOf, hb]
    simp only [List.cons_append, hpre, Bool.false_eq_true, if_false]
    rw [ih s (fun x hx => hclean x (by simp [hx]))]

/-- The pattern at the head of the input is replaced and the scan resumes
strictly after it: the replacement text is never re-examined. -/
theorem replaceGoAux_head (pat repl b : Line) (hp : pat ≠ []) :
    replaceGoAux pat repl (pat ++ b).length (pat ++ b) =
      repl ++ replaceGoAux pat repl b.length b := by
  cases pat with
  | nil => exact absurd rfl hp
  | cons p0 pt =>
    have hstep : ((p0 :: pt) ++ b).length = (pt ++ b).length + 1 := by simp
    simp only [List.cons_append] at hstep ⊢
    rw [hstep, replaceGoAux]
    have hpre : (p0 :: pt).isPrefixOf (p0 :: (pt ++ b)) = true := by
      rw [List.isPrefixOf_iff_prefix]
      exact ⟨b, by simp⟩
    simp only [hpre, if_true]
    have hdrop : (p0 :: (pt ++ b)).drop (p0 :: pt).length = b := by
      have he : (p0 :: (pt ++ b)) = (p0 :: pt) ++ b := by simp
      rw [he, List.drop_left]
    rw [hdrop]
    congr 1
    exact replaceGoAux_fuel_eq (p0 :: pt) repl (by simp) (pt ++ b).length b.length b
      (by simp) (by simp)

/-- Literal single-pass replacement: an occurrence of `pat` after a `$`-free
region is replaced by `repl`, and scanning continues after the occurrence
only. -/
theorem replaceAll_occurrence (pat repl a b : Line) (p0 : Line)
    (hp : pat = '$' :: p0) (hclean : ∀ c ∈ a, c ≠ '$') :
    replaceAll pat repl (a ++ pat ++ b) = a ++ repl ++ replaceAll pat repl b := by
  have hne : pat ≠ [] := by subst hp; simp
  rw [replaceAll, replaceAll, if_neg hne, if_neg hne, List.append_assoc,
    replaceGoAux_clean pat repl p0 hp a (pat ++ b) hclean,
    replaceGoAux_head pat repl b hne, List.append_assoc]

/-- C9 (counterexample).  The claim that a placeholder introduced by a
substituted token value is never itself expanded is false: substitution is one
`str.replace` pass per token in list order, so the `TITLE` pass can introduce
`$\x7bPROMPT\x7d`, which the later `PROMPT` pass then expands.  With content
`$\x7bTITLE\x7d` and `TITLE ↦ $\x7bPROMPT\x7d`, `PROMPT ↦ P`, the result is
`P`, not the literal value `$\x7bPROMPT\x7d` of `TITLE`. -/
theorem c9_token_substitution_counterexample :
    replace_tokens_in_text "$\x7bTITLE\x7d".toList
        [("TITLE".toList, "$\x7bPROMPT\x7d".toList), ("PROMPT".toList, "P".toList)] =
      "P".toList ∧
    "P".toList ≠ "$\x7bPROMPT\x7d".toList := by
  constructor
  · rfl
  · decide

/-- C9 (amended).  Token substitution is literal and applied one token at a
time, in the order the tokens are listed: within a single token's pass an
occurrence of the token's placeholder (after a `$`-free region) is replaced by
the token's literal string value, and the replaced text is not rescanned by
that pass — the scan continues strictly after the occurrence.  A placeholder
introduced by a substituted value can, however, be expanded by a *later*
token's pass (see the counterexample). -/
theorem c9_token_substitution_amended :
    (∀ content kv ts,
      replace_tokens_in_text content (kv :: ts) =
        replace_tokens_in_text (replaceAll (placeholder kv.1) kv.2 content) ts) ∧
    (∀ (k v a b : Line), (∀ c ∈ a, c ≠ '$') →
      replace_tokens_in_text (a ++ placeholder k ++ b) [(k, v)] =
        a ++ v ++ replace_tokens_in_text b [(k, v)]) := by
  constructor
  · intro content kv ts
    rfl
  · intro k v a b hclean
    show replaceAll (placeholder k) v (a ++ placeholder k ++ b) =
      a ++ v ++ replaceAll (placeholder k) v b
    exact replaceAll_occurrence (placeholder k) v a b (lbrace :: (k ++ [rbrace])) rfl hclean

/-- Closed instance of the amended C9 theorem at concrete strings. -/
theorem c9_token_substitution_witness :
    replace_tokens_in_text ("ab".toList ++ placeholder "TITLE".toList ++ "cd".toList)
        [("TITLE".toList, "X".toList)] =
      "ab".toList ++ "X".toList ++
        replace_tokens_in_text "cd".toList [("TITLE".toList, "X".toList)] :=
  c9_token_substitution_amended.2 "TITLE".toList "X".toList "ab".toList "cd".toList
    (by decide)

/-- A parsed field value: a single string or an ordered list of strings. -/
inductive Value where
  | scalar : Line → Value
  | vlist : List Line → Value
deriving DecidableEq

/-- A Record: field name to value, in insertion order (Python dict). -/
abbrev Record := List (Line × Value)

/-- The fixed key `"prompt"` under which every block scalar is stored. -/
def promptKey : Line := "prompt".toList

/-- The fixed key `"checklist"`. -/
def checklistKey : Line := "checklist".toList

/-- The fixed key `"tags"`. -/
def tagsKey : Line := "tags".toList

/-- Python `record[k]` as a query. -/
def lookupKey (k : Line) : Record → Option Value
  | [] => none
  | (k', v) :: r => if k' = k then some v else lookupKey k r

/-- Python `record[k] = v`: overwrite in place, else append at the end. -/
def setKey (r : Record) (k : Line) (v : Value) : Record :=
  match r with
  | [] => [(k, v)]
  | (k', v') :: rest => if k' = k then (k', v) :: rest else (k', v') :: setKey rest k v

/-- `current.setdefault("checklist", []).append(item)`: appending to a scalar
value would raise `AttributeError` in Python (that branch is unreachable in
any actual run, but the embedding keeps it). -/
def appendChecklist (r : Record) (item : Line) : Except String Record :=
  match lookupKey checklistKey r with
  | some (Value.vlist l) => .ok (setKey r checklistKey (Value.vlist (l ++ [item])))
  | some (Value.scalar _) => .error "AttributeError"
  | none => .ok (r ++ [(checklistKey, Value.vlist [item])])

/-- Parser state: the mutable locals of `parse_questions_yaml`'s loop. -/
structure PState where
  items : List Record
  current : Option Record
  collecting_prompt : Bool
  prompt_lines : List Line
  prompt_indent : Nat
  checklist_mode : Bool
  checklist_indent : Nat
deriving DecidableEq

/-- The state before the first line is processed. -/
def initState : PState := ⟨[], none, false, [], 0, false, 0⟩

/-- A line that survives the global filter: not blank and not a comment
(`if not line.strip() or line.lstrip().startswith("#"): continue`). -/
def significant (l : Line) : Bool :=
  !(pyStrip l).isEmpty && !((pyLStrip l).take 1 == ['#'])

/-- `line.split(":", 1)`: the part before the first colon and the part after
it (the whole line and `[]` when no colon occurs; callers guard on that). -/
def splitColonLine (l : Line) : Line × Line :=
  (l.takeWhile (fun c => c != ':'), (l.dropWhile (fun c => c != ':')).drop 1)

/-- The value the block-scalar buffer is flushed to:
`"\n".join(prompt_lines).rstrip("\n")`. -/
def flushedPrompt (ls : List Line) : Line := rstripNL (joinNL ls)

/-- `current["prompt"] = "\n".join(prompt_lines).rstrip("\n")` plus the mode
reset (lines 93–99 of the script).  Notice the fixed key `"prompt"`: the key
that declared the block scalar is not remembered. -/
def finishPrompt (st : PState) : PState :=
  { st with
    current := match st.current with
      | some r => some (setKey r promptKey (Value.scalar (flushedPrompt st.prompt_lines)))
      | none => none,
    collecting_prompt := false, prompt_lines := [], prompt_indent := 0 }

/-- Lines 112–141 of the script: the scanning rules applied once the two
collection modes have been resolved for this line.  (The Python locals
`tail`, `key` and `val` are inlined.) -/
def scanLine (st : PState) (line : Line) (indent : Nat) : Except String PState :=
  if line.take 2 = ['-', ' '] ∧ indent = 0 then
    .ok { st with
            items :=
              match st.current with
              | some r => if r ≠ [] then st.items ++ [r] else st.items
              | none => st.items
            current := some (
              if pyStrip (line.drop 2) ≠ [] ∧ (pyStrip (line.drop 2)).contains ':' = true then
                [(pyStrip (splitColonLine (pyStrip (line.drop 2))).1,
                  Value.scalar (pyStrip (splitColonLine (pyStrip (line.drop 2))).2))]
              else []) }
  else if line.contains ':' = true then
    if pyStrip (splitColonLine (pyStrip line)).2 = ['|'] then
      .ok { st with collecting_prompt := true, prompt_indent := indent, prompt_lines := [] }
    else if pyStrip (splitColonLine (pyStrip line)).1 = checklistKey then
      match st.current with
      | none => .error "AssertionError"
      | some r =>
        .ok { st with
                checklist_mode := true
                checklist_indent := indent + 2
                current := some (setKey r checklistKey (Value.vlist [])) }
    else
      match st.current with
      | none => .error "AssertionError"
      | some r =>
        .ok { st with current := some (setKey r
                (pyStrip (splitColonLine (pyStrip line)).1)
                (Value.scalar (pyStrip (splitColonLine (pyStrip line)).2))) }
  else
    .ok st

/-- The state after the `collecting_prompt` fall-through (lines 89–100): an
open block scalar is flushed before the line is examined further. -/
def afterPrompt (st : PState) : PState :=
  if st.collecting_prompt then finishPrompt st else st

/-- The state after leaving checklist mode (lines 108–110). -/
def clearChecklist (st : PState) : PState :=
  if st.checklist_mode then { st with checklist_mode := false, checklist_indent := 0 } else st

/-- One iteration of the parser loop on one raw line. -/
def processLine (st : PState) (line : Line) : Except String PState :=
  if significant line = false then .ok st
  else if st.collecting_prompt = true ∧ indentOf line > st.prompt_indent then
    .ok { st with prompt_lines := st.prompt_lines ++ [line.drop (st.prompt_indent + 2)] }
  else if (afterPrompt st).checklist_mode = true ∧
      (afterPrompt st).checklist_indent ≤ indentOf line ∧
      (pyStrip line).take 2 = ['-', ' '] then
    match (afterPrompt st).current with
    | none => .error "AssertionError"
    | some r =>
      match appendChecklist r ((pyStrip line).drop 2) with
      | .error e => .error e
      | .ok r' => .ok { afterPrompt st with current := some r' }
  else
    scanLine (clearChecklist (afterPrompt st)) line (indentOf line)

/-- The loop over all lines, stopping at the first raised exception. -/
def runLines : PState → List Line → Except String PState
  | st, [] => .ok st
  | st, l :: ls =>
    match processLine st l with
    | .error e => .error e
    | .ok st' => runLines st' ls

/-- End of input (lines 143–146): flush an open block scalar into the
in-progress record, then append that record — but only when it is non-empty
(`if current:`). -/
def finalize (st : PState) : List Record :=
  match st.current with
  | none => st.items
  | some r =>
    if st.collecting_prompt then
      if setKey r promptKey (Value.scalar (flushedPrompt st.prompt_lines)) ≠ [] then
        st.items ++ [setKey r promptKey (Value.scalar (flushedPrompt st.prompt_lines))]
      else st.items
    else
      if r ≠ [] then st.items ++ [r] else st.items

/-- `[t.strip() for t in s.split(",") if t.strip()]`. -/
def normTags (s : Line) : List Line :=
  ((s.splitOn ',').map pyStrip).filter (fun t => !t.isEmpty)

/-- The normalization pass over one parsed item (lines 149–154; the
checklist branch maps `str` over a list of strings and is the identity
here). -/
def normalizeItem (r : Record) : Record :=
  match lookupKey tagsKey r with
  | some (Value.scalar s) => setKey r tagsKey (Value.vlist (normTags s))
  | _ => r

/-- `parse_questions_yaml` from `bin/new-ex.py`, on the already-split lines of
the file. -/
def parse_questions_yaml (doc : List Line) : Except String (List Record) :=
  match runLines initState doc with
  | .error e => .error e
  | .ok st => .ok ((finalize st).map normalizeItem)

theorem runLines_append (st : PState) (xs ys : List Line) :
    runLines st (xs ++ ys) =
      match runLines st xs with
      | .error e => .error e
      | .ok st' => runLines st' ys := by
  induction xs generalizing st with
  | nil => simp [runLines]
  | cons l ls ih =>
    simp only [List.cons_append, runLines]
    cases processLine st l with
    | error e => rfl
    | ok st' => exact ih st'

/-- While the block-scalar mode is active, every line deeper than the base
indentation is appended (stripped of `base_indent + 2` leading characters),
and blank or comment lines are silently dropped by the global filter. -/
theorem runLines_block :
    ∀ (cont : List Line) (st : PState), st.collecting_prompt = true →
      (∀ l ∈ cont, significant l = true → st.prompt_indent < indentOf l) →
      runLines st cont =
        .ok { st with prompt_lines := st.prompt_lines ++
          ((cont.filter significant).map (fun l => l.drop (st.prompt_indent + 2))) } := by
  intro cont
  induction cont with
  | nil =>
    intro st hc _
    simp [runLines]
  | cons l ls ih =>
    intro st hc hind
    rw [runLines]
    by_cases hs : significant l = true
    · have hgt : st.prompt_indent < indentOf l := hind l (by simp) hs
      have hp : processLine st l =
          .ok { st with prompt_lines :=
                  st.prompt_lines ++ [l.drop (st.prompt_indent + 2)] } := by
        rw [processLine, if_neg (by simp [hs]), if_pos ⟨hc, hgt⟩]
      rw [hp]
      show runLines _ ls = _
      rw [ih _ (by simp [hc]) ?_]
      · simp [List.filter_cons, hs, List.append_assoc]
      · intro m hm hsm
        simpa using hind m (by simp [hm]) hsm
    · have hp : processLine st l = .ok st := by
        rw [processLine, if_pos (by simpa using hs)]
      rw [hp]
      show runLines st ls = _
      rw [ih st hc (fun m hm => hind m (by simp [hm]))]
      simp [List.filter_cons, hs]

/-- C2 (counterexample).  Blank lines inside a block scalar are *not*
preserved: the global blank-line filter (line 85 of the script) skips them
before the block-collection branch can buffer them, so the document

```
- slug: a
  prompt: |
    l1

    l2
```

stores `prompt = "l1\nl2"`, not the claimed `"l1\n\nl2"`. -/
theorem c2_blank_lines_counterexample :
    parse_questions_yaml ["- slug: a".toList, "  prompt: |".toList,
        "    l1".toList, "".toList, "    l2".toList] =
      .ok [[("slug".toList, Value.scalar "a".toList),
            ("prompt".toList, Value.scalar "l1\nl2".toList)]] ∧
    "l1\nl2".toList ≠ "l1\n\nl2".toList :=
  ⟨rfl, by decide⟩

/-- C2 (amended).  For a block-scalar field declared at indentation 2, the
stored value is the newline-join — with trailing newlines stripped — of the
*significant* continuation lines (blank and comment lines are dropped by the
global filter) with `base_indent + 2` leading characters stripped. -/
theorem c2_block_scalar_amended :
    ∀ (cont : List Line), (∀ l ∈ cont, significant l = true → 2 < indentOf l) →
      parse_questions_yaml (["- slug: a".toList, "  prompt: |".toList] ++ cont) =
        .ok [[("slug".toList, Value.scalar "a".toList),
              ("prompt".toList, Value.scalar
                (flushedPrompt ((cont.filter significant).map (fun l => l.drop 4))))]] := by
  intro cont hind
  have hrun : runLines initState (["- slug: a".toList, "  prompt: |".toList] ++ cont) =
      .ok ⟨[], some [("slug".toList, Value.scalar "a".toList)], true,
        (cont.filter significant).map (fun l => l.drop 4), 2, false, 0⟩ := by
    rw [runLines_append,
      show runLines initState ["- slug: a".toList, "  prompt: |".toList] =
        .ok ⟨[], some [("slug".toList, Value.scalar "a".toList)], true, [], 2, false, 0⟩ from rfl]
    exact runLines_block cont _ rfl hind
  rw [parse_questions_yaml, hrun]
  simp +decide [finalize, normalizeItem, setKey, lookupKey, flushedPrompt, promptKey, tagsKey]

/-- Closed instance of the amended C2 theorem on a concrete document with a
blank line inside the block. -/
theorem c2_block_scalar_witness :
    parse_questions_yaml (["- slug: a".toList, "  prompt: |".toList] ++
        ["    l1".toList, "".toList, "    l2".toList]) =
      .ok [[("slug".toList, Value.scalar "a".toList),
            ("prompt".toList, Value.scalar
              (flushedPrompt (((["    l1".toList, "".toList, "    l2".toList].filter
                significant)).map (fun l => l.drop 4))))]] :=
  c2_block_scalar_amended ["    l1".toList, "".toList, "    l2".toList] (by decide)

theorem takeWhile_append_stop {p : Char → Bool} :
    ∀ (k : Line) (c : Char) (rest : Line), (∀ x ∈ k, p x = true) → p c = false →
      (k ++ c :: rest).takeWhile p = k := by
  intro k
  induction k with
  | nil => intro c rest _ hc; simp [List.takeWhile_cons, hc]
  | cons a t ih =>
    intro c rest hall hc
    have ha : p a = true := hall a (by simp)
    simp [List.takeWhile_cons, ha, ih c rest (fun x hx => hall x (by simp [hx])) hc]

theorem dropWhile_append_stop {p : Char → Bool} :
    ∀ (k : Line) (c : Char) (rest : Line), (∀ x ∈ k, p x = true) → p c = false →
      (k ++ c :: rest).dropWhile p = c :: rest := by
  intro k
  induction k with
  | nil => intro c rest _ hc; simp [List.dropWhile_cons, hc]
  | cons a t ih =>
    intro c rest hall hc
    have ha : p a = true := hall a (by simp)
    simp [List.dropWhile_cons, ha, ih c rest (fun x hx => hall x (by simp [hx])) hc]

theorem dropWhile_eq_self_of_head {p : Char → Bool} (c : Char) (t : Line)
    (hc : p c = false) : (c :: t).dropWhile p = c :: t := by
  simp [List.dropWhile_cons, hc]

/-- A key with no whitespace characters is untouched by `str.strip()`. -/
theorem pyStrip_of_no_space (k : Line) (hsp : ∀ c ∈ k, isPySpace c = false) :
    pyStrip k = k := by
  have h1 : pyLStrip k = k := by
    unfold pyLStrip
    cases k with
    | nil => rfl
    | cons c t => exact dropWhile_eq_self_of_head c t (hsp c (by simp))
  have h2 : pyRStrip k = k := by
    unfold pyRStrip
    cases hr : k.reverse with
    | nil => simp [hr, List.reverse_eq_nil_iff.mp hr]
    | cons c t =>
      have hc : c ∈ k := by
        have : c ∈ k.reverse := by rw [hr]; simp
        simpa using this
      rw [dropWhile_eq_self_of_head c t (hsp c hc), ← hr, List.reverse_reverse]
  rw [pyStrip, h1, h2]

/-- `"  <k>: |".strip() = "<k>: |"` for a non-empty whitespace-free key. -/
theorem pyStrip_key_line (k : Line) (hk : k ≠ []) (hsp : ∀ c ∈ k, isPySpace c = false) :
    pyStrip (' ' :: ' ' :: (k ++ [':', ' ', '|'])) = k ++ [':', ' ', '|'] := by
  have h1 : pyLStrip (' ' :: ' ' :: (k ++ [':', ' ', '|'])) = k ++ [':', ' ', '|'] := by
    unfold pyLStrip
    rw [List.dropWhile_cons, if_pos (by decide), List.dropWhile_cons, if_pos (by decide)]
    cases k with
    | nil => exact absurd rfl hk
    | cons c t =>
      exact dropWhile_eq_self_of_head c (t ++ [':', ' ', '|']) (hsp c (by simp))
  have h2 : pyRStrip (k ++ [':', ' ', '|']) = k ++ [':', ' ', '|'] := by
    unfold pyRStrip
    rw [show (k ++ [':', ' ', '|']).reverse = '|' :: ' ' :: ':' :: k.reverse by simp]
    rw [dropWhile_eq_self_of_head '|' _ (by decide)]
    simp
  rw [pyStrip, h1, h2]

/-- With both collection modes off, a significant line goes straight to the
scanning rules. -/
theorem processLine_scanning (st : PState) (l : Line) (hcp : st.collecting_prompt = false)
    (hcm : st.checklist_mode = false) (hs : significant l = true) :
    processLine st l = scanLine st l (indentOf l) := by
  rw [processLine, if_neg (by simp [hs])]
  simp [afterPrompt, clearChecklist, hcp, hcm]

theorem indentOf_key_line (k : Line) (hk : k ≠ []) (hsp : ∀ c ∈ k, isPySpace c = false) :
    indentOf (' ' :: ' ' :: (k ++ [':', ' ', '|'])) = 2 := by
  unfold indentOf
  rw [List.takeWhile_cons, if_pos (by decide), List.takeWhile_cons, if_pos (by decide)]
  cases k with
  | nil => exact absurd rfl hk
  | cons c t =>
    have hc : (decide (c = ' ')) = false := by
      have := hsp c (by simp)
      cases Decidable.em (c = ' ') with
      | inl h => subst h; simp [isPySpace] at this
      | inr h => simp [h]
    rw [List.cons_append, List.takeWhile_cons, hc]
    rfl

/-- C3 (counterexample).  A block scalar declared under a key other than
`prompt` is still stored under the key `prompt`: the parser never remembers
the declaring key.  For `notes: |` the buffered text ends up in `prompt` and
no `notes` field exists. -/
theorem c3_block_scalar_key_counterexample :
    parse_questions_yaml ["- slug: a".toList, "  notes: |".toList, "    hello".toList] =
      .ok [[("slug".toList, Value.scalar "a".toList),
            ("prompt".toList, Value.scalar "hello".toList)]] ∧
    lookupKey "notes".toList
        [("slug".toList, Value.scalar "a".toList),
         ("prompt".toList, Value.scalar "hello".toList)] = none :=
  ⟨rfl, rfl⟩

/-- C3 (amended).  For *every* field declared `key: |`, the parser transitions
to block-scalar collection with this line's indentation as base, but it does
not remember the key: on exit the joined, trailing-newline-stripped buffer is
stored under the fixed key `prompt`, whatever the declaring key was. -/
theorem c3_block_scalar_any_key_amended :
    ∀ (k : Line) (cont : List Line),
      k ≠ [] → (∀ c ∈ k, isPySpace c = false) → (':' : Char) ∉ k →
      k.take 1 ≠ ['#'] →
      (∀ l ∈ cont, significant l = true → 2 < indentOf l) →
      parse_questions_yaml (["- slug: a".toList,
          ' ' :: ' ' :: (k ++ [':', ' ', '|'])] ++ cont) =
        .ok [[("slug".toList, Value.scalar "a".toList),
              ("prompt".toList, Value.scalar
                (flushedPrompt ((cont.filter significant).map (fun l => l.drop 4))))]] := by
  intro k cont hk hsp hcolon hhash hind
  have hstrip : pyStrip (' ' :: ' ' :: (k ++ [':', ' ', '|'])) = k ++ [':', ' ', '|'] :=
    pyStrip_key_line k hk hsp
  have hsig : significant (' ' :: ' ' :: (k ++ [':', ' ', '|'])) = true := by
    unfold significant
    rw [hstrip]
    have hne : (k ++ [':', ' ', '|']).isEmpty = false := by
      cases k <;> rfl
    have hlst : pyLStrip (' ' :: ' ' :: (k ++ [':', ' ', '|'])) = k ++ [':', ' ', '|'] := by
      unfold pyLStrip
      rw [List.dropWhile_cons, if_pos (by decide), List.dropWhile_cons, if_pos (by decide)]
      cases k with
      | nil => exact absurd rfl hk
      | cons c t =>
        exact dropWhile_eq_self_of_head c (t ++ [':', ' ', '|']) (hsp c (by simp))
    rw [hlst, hne]
    have htake : (k ++ [':', ' ', '|']).take 1 = k.take 1 := by
      cases k with
      | nil => exact absurd rfl hk
      | cons c t => simp
    simp only [Bool.not_false, Bool.true_and, htake]
    cases hdec : (k.take 1 == ['#']) with
    | false => rfl
    | true => exact absurd (by simpa using hdec) hhash
  have hst1 : processLine initState "- slug: a".toList =
      .ok ⟨[], some [("slug".toList, Value.scalar "a".toList)], false, [], 0, false, 0⟩ := rfl
  have hsplitpair : splitColonLine (k ++ [':', ' ', '|']) = (k, [' ', '|']) := by
    have hsplit1 : (k ++ [':', ' ', '|']).takeWhile (fun c => c != ':') = k := by
      apply takeWhile_append_stop k ':' [' ', '|'] ?_ (by decide)
      intro x hx
      cases Decidable.em (x = ':') with
      | inl h => exact absurd (h ▸ hx) hcolon
      | inr h => simp [h]
    have hsplit2 : (k ++ [':', ' ', '|']).dropWhile (fun c => c != ':') = [':', ' ', '|'] := by
      apply dropWhile_append_stop k ':' [' ', '|'] ?_ (by decide)
      intro x hx
      cases Decidable.em (x = ':') with
      | inl h => exact absurd (h ▸ hx) hcolon
      | inr h => simp [h]
    rw [splitColonLine, hsplit1, hsplit2]
    rfl
  have hst2 : processLine
      ⟨[], some [("slug".toList, Value.scalar "a".toList)], false, [], 0, false, 0⟩
      (' ' :: ' ' :: (k ++ [':', ' ', '|'])) =
      .ok ⟨[], some [("slug".toList, Value.scalar "a".toList)], true, [], 2, false, 0⟩ := by
    rw [processLine_scanning _ _ rfl rfl hsig, indentOf_key_line k hk hsp, scanLine]
    rw [if_neg (fun h => absurd h.2 (by decide))]
    have hcont : (' ' :: ' ' :: (k ++ [':', ' ', '|'])).contains ':' = true := by
      apply List.elem_eq_true_of_mem
      simp
    rw [if_pos hcont]
    simp only [hstrip, hsplitpair]
    rw [show pyStrip [' ', '|'] = ['|'] from rfl, if_pos rfl]
  have hrun : runLines initState (["- slug: a".toList,
      ' ' :: ' ' :: (k ++ [':', ' ', '|'])] ++ cont) =
      .ok ⟨[], some [("slug".toList, Value.scalar "a".toList)], true,
        (cont.filter significant).map (fun l => l.drop 4), 2, false, 0⟩ := by
    rw [List.cons_append, runLines, hst1]
    show runLines _ _ = _
    rw [List.cons_append, runLines, hst2]
    exact runLines_block cont _ rfl hind
  rw [parse_questions_yaml, hrun]
  simp +decide [finalize, normalizeItem, setKey, lookupKey, flushedPrompt, promptKey, tagsKey]

/-- Closed instance of the amended C3 theorem: key `notes`, one continuation
line. -/
theorem c3_block_scalar_any_key_witness :
    parse_questions_yaml (["- slug: a".toList,
        ' ' :: ' ' :: ("notes".toList ++ [':', ' ', '|'])] ++ ["    hi".toList]) =
      .ok [[("slug".toList, Value.scalar "a".toList),
            ("prompt".toList, Value.scalar
              (flushedPrompt ((["    hi".toList].filter significant).map
                (fun l => l.drop 4))))]] :=
  c3_block_scalar_any_key_amended "notes".toList ["    hi".toList]
    (by decide) (by decide) (by decide) (by decide) (by decide)

/-- A top-level list marker: the line starts with the two characters
dash-space and has indentation 0. -/
def isMarker (l : Line) : Bool := l.take 2 == ['-', ' '] && indentOf l == 0

/-- The number of top-level markers in a document. -/
def countMarkers (doc : List Line) : Nat := (doc.filter isMarker).length

/-- The contribution of the in-progress record to the final record count
(`if current:` counts only a non-empty dict as truthy). -/
def curWeight : Option Record → Nat
  | some r => if r ≠ [] then 1 else 0
  | none => 0

theorem setKey_ne_nil (r : Record) (k : Line) (v : Value) : setKey r k v ≠ [] := by
  cases r with
  | nil => simp [setKey]
  | cons p rest =>
    rw [setKey]
    split <;> simp

theorem dropWhile_ne_nil_of_exists {p : Char → Bool} :
    ∀ (l : Line) (c : Char), c ∈ l → p c = false → l.dropWhile p ≠ [] := by
  intro l
  induction l with
  | nil => intro c hc; simp at hc
  | cons a t ih =>
    intro c hc hpc
    rw [List.dropWhile_cons]
    by_cases ha : p a = true
    · rw [if_pos ha]
      have hct : c ∈ t := by
        rcases List.mem_cons.mp hc with rfl | h
        · rw [ha] at hpc; cases hpc
        · exact h
      exact ih c hct hpc
    · rw [if_neg ha]
      simp

theorem isMarker_iff (l : Line) :
    isMarker l = true ↔ l.take 2 = ['-', ' '] ∧ indentOf l = 0 := by
  simp [isMarker]

/-- A top-level marker line survives the blank/comment filter. -/
theorem isMarker_significant (l : Line) (h : isMarker l = true) :
    significant l = true := by
  obtain ⟨htake, _⟩ := (isMarker_iff l).mp h
  obtain ⟨t, rfl⟩ : ∃ t, l = '-' :: ' ' :: t := by
    cases l with
    | nil => simp at htake
    | cons a l' =>
      cases l' with
      | nil => simp at htake
      | cons b t =>
        simp only [List.take, List.cons.injEq] at htake
        exact ⟨t, by simp [htake.1, htake.2.1]⟩
  unfold significant
  have h1 : pyLStrip ('-' :: ' ' :: t) = '-' :: ' ' :: t :=
    dropWhile_eq_self_of_head '-' (' ' :: t) (by decide)
  have h2 : pyStrip ('-' :: ' ' :: t) ≠ [] := by
    unfold pyStrip
    rw [h1]
    unfold pyRStrip
    intro hcon
    have : ('-' :: ' ' :: t).reverse.dropWhile isPySpace ≠ [] := by
      apply dropWhile_ne_nil_of_exists _ '-' (by simp) (by decide)
    rw [List.reverse_eq_nil_iff] at hcon
    exact this hcon
  rw [h1]
  simp only [List.isEmpty_eq_true, Bool.and_eq_true, Bool.not_eq_true]
  constructor
  · cases hs : pyStrip ('-' :: ' ' :: t) with
    | nil => exact absurd hs h2
    | cons a l' => simp
  · rfl


/-- One scanning step preserves the record-count bookkeeping: a marker adds
exactly one (when its tail carries a `key: value` pair), everything else adds
zero, the in-progress record never becomes the empty record, and a freshly
entered checklist mode always has `checklist_indent ≥ 2`. -/
theorem scanLine_step (st : PState) (l : Line) (indent : Nat) (st' : PState)
    (hcm : st.checklist_mode = false)
    (hInv : st.current ≠ some ([] : Record))
    (hM : l.take 2 = ['-', ' '] ∧ indent = 0 → (pyStrip (l.drop 2)).contains ':' = true)
    (h : scanLine st l indent = .ok st') :
    (st'.items.length + curWeight st'.current =
      st.items.length + curWeight st.current +
        (if l.take 2 = ['-', ' '] ∧ indent = 0 then 1 else 0)) ∧
    st'.current ≠ some [] ∧
    (st'.checklist_mode = true → 2 ≤ st'.checklist_indent) := by
  rw [scanLine] at h
  by_cases hm : l.take 2 = ['-', ' '] ∧ indent = 0
  · rw [if_pos hm] at h ⊢
    have hcolon := hM hm
    have htail : pyStrip (l.drop 2) ≠ [] := by
      intro hnil
      rw [hnil] at hcolon
      cases hcolon
    rw [if_pos ⟨htail, hcolon⟩] at h
    injection h with h'
    subst h'
    refine ⟨?_, by simp, by simp [hcm]⟩
    cases hcur : st.current with
    | none => simp [hcur, curWeight]
    | some r =>
      by_cases hr : r ≠ []
      · simp [hcur, curWeight, hr]
      · simp only [ne_eq, not_not] at hr
        exact absurd (hr ▸ hcur) hInv
  · rw [if_neg hm] at h ⊢
    by_cases hc : l.contains ':' = true
    · rw [if_pos hc] at h
      set kv := splitColonLine (pyStrip l) with hkv
      by_cases hv : pyStrip kv.2 = ['|']
      · rw [if_pos hv] at h
        injection h with h'
        subst h'
        exact ⟨by simp, hInv, by simp [hcm]⟩
      · rw [if_neg hv] at h
        by_cases hk : pyStrip kv.1 = checklistKey
        · rw [if_pos hk] at h
          cases hcur : st.current with
          | none => rw [hcur] at h; cases h
          | some r =>
            rw [hcur] at h
            injection h with h'
            subst h'
            have hr : r ≠ [] := fun hnil => absurd (hnil ▸ hcur) hInv
            refine ⟨?_, by simp [setKey_ne_nil], ?_⟩
            · simp [hcur, curWeight, hr, setKey_ne_nil]
            · intro
              show 2 ≤ indent + 2
              omega
        · rw [if_neg hk] at h
          cases hcur : st.current with
          | none => rw [hcur] at h; cases h
          | some r =>
            rw [hcur] at h
            injection h with h'
            subst h'
            have hr : r ≠ [] := fun hnil => absurd (hnil ▸ hcur) hInv
            refine ⟨?_, by simp [setKey_ne_nil], by simp [hcm]⟩
            simp [hcur, curWeight, hr, setKey_ne_nil]
    · rw [if_neg hc] at h
      injection h with h'
      subst h'
      exact ⟨by simp, hInv, by simp [hcm]⟩

theorem afterPrompt_fields (st : PState) :
    (afterPrompt st).items = st.items ∧ (afterPrompt st).checklist_mode = st.checklist_mode ∧
    (afterPrompt st).checklist_indent = st.checklist_indent := by
  unfold afterPrompt finishPrompt
  split <;> simp

theorem afterPrompt_current (st : PState) (hInv : st.current ≠ some ([] : Record)) :
    (afterPrompt st).current ≠ some ([] : Record) ∧
    curWeight (afterPrompt st).current = curWeight st.current := by
  unfold afterPrompt finishPrompt
  split
  · cases hcur : st.current with
    | none => simp [hcur, curWeight]
    | some r =>
      have hr : r ≠ [] := fun hnil => absurd (hnil ▸ hcur) hInv
      simp [hcur, curWeight, hr, setKey_ne_nil]
  · exact ⟨hInv, rfl⟩

theorem clearChecklist_fields (st : PState) :
    (clearChecklist st).items = st.items ∧ (clearChecklist st).current = st.current ∧
    (clearChecklist st).checklist_mode = false ∨ clearChecklist st = st := by
  unfold clearChecklist
  split
  · left; simp
  · right; rfl

theorem clearChecklist_same (st : PState) :
    (clearChecklist st).items = st.items ∧ (clearChecklist st).current = st.current := by
  unfold clearChecklist
  split <;> simp

theorem clearChecklist_mode (st : PState) : (clearChecklist st).checklist_mode = false := by
  unfold clearChecklist
  split
  · rfl
  · rename_i hmode
    simpa using hmode

theorem countMarkers_cons (l : Line) (ls : List Line) :
    countMarkers (l :: ls) = (if isMarker l then 1 else 0) + countMarkers ls := by
  rw [countMarkers, countMarkers, List.filter_cons]
  split
  · simp [Nat.add_comm]
  · simp

/-- One full parser step preserves the record-count bookkeeping. -/
theorem processLine_step (st : PState) (l : Line) (st' : PState)
    (hInv1 : st.current ≠ some ([] : Record))
    (hInv2 : st.checklist_mode = true → 2 ≤ st.checklist_indent)
    (hM : isMarker l = true → (pyStrip (l.drop 2)).contains ':' = true)
    (h : processLine st l = .ok st') :
    (st'.items.length + curWeight st'.current =
      st.items.length + curWeight st.current + (if isMarker l then 1 else 0)) ∧
    st'.current ≠ some [] ∧ (st'.checklist_mode = true → 2 ≤ st'.checklist_indent) := by
  rw [processLine] at h
  by_cases hsig : significant l = false
  · rw [if_pos hsig] at h
    injection h with h'
    subst h'
    have hnm : isMarker l = false := by
      cases him : isMarker l
      · rfl
      · have := isMarker_significant l him
        simp [hsig] at this
    exact ⟨by simp [hnm], hInv1, hInv2⟩
  · rw [if_neg hsig] at h
    by_cases hbp : st.collecting_prompt = true ∧ indentOf l > st.prompt_indent
    · rw [if_pos hbp] at h
      injection h with h'
      subst h'
      have hnm : isMarker l = false := by
        cases him : isMarker l
        · rfl
        · obtain ⟨_, hz⟩ := (isMarker_iff l).mp him
          have h2 := hbp.2
          omega
      exact ⟨by simp [hnm], hInv1, hInv2⟩
    · rw [if_neg hbp] at h
      obtain ⟨hapI, hapM, hapCI⟩ := afterPrompt_fields st
      obtain ⟨hapC, hapW⟩ := afterPrompt_current st hInv1
      by_cases hbl : (afterPrompt st).checklist_mode = true ∧
          (afterPrompt st).checklist_indent ≤ indentOf l ∧ (pyStrip l).take 2 = ['-', ' ']
      · rw [if_pos hbl] at h
        have hci : 2 ≤ (afterPrompt st).checklist_indent := by
          rw [hapCI]
          exact hInv2 (by rw [← hapM]; exact hbl.1)
        have hnm : isMarker l = false := by
          cases him : isMarker l
          · rfl
          · obtain ⟨_, hz⟩ := (isMarker_iff l).mp him
            have hle := hbl.2.1
            omega
        cases hcur : (afterPrompt st).current with
        | none => rw [hcur] at h; cases h
        | some r =>
          simp only [hcur] at h
          cases hap : appendChecklist r ((pyStrip l).drop 2) with
          | error e => simp only [hap] at h; cases h
          | ok r' =>
            simp only [hap] at h
            injection h with h'
            subst h'
            have hr : r ≠ [] := fun hnil => absurd (hnil ▸ hcur) hapC
            have hr' : r' ≠ [] := by
              rw [appendChecklist] at hap
              cases hlk : lookupKey checklistKey r with
              | none =>
                rw [hlk] at hap
                injection hap with h2
                subst h2
                simp
              | some v =>
                cases v with
                | scalar s => rw [hlk] at hap; cases hap
                | vlist ll =>
                  rw [hlk] at hap
                  injection hap with h2
                  subst h2
                  exact setKey_ne_nil r _ _
            have hwcur : curWeight st.current = 1 := by
              rw [← hapW, hcur]
              simp [curWeight, hr]
            refine ⟨?_, by simp [hr'], ?_⟩
            · show (afterPrompt st).items.length + curWeight (some r') =
                st.items.length + curWeight st.current + (if isMarker l = true then 1 else 0)
              rw [hapI, hwcur, hnm]
              simp [curWeight, hr']
            · intro hmode
              show 2 ≤ (afterPrompt st).checklist_indent
              exact hci
      · rw [if_neg hbl] at h
        obtain ⟨hccI, hccC⟩ := clearChecklist_same (afterPrompt st)
        have hInv1' : (clearChecklist (afterPrompt st)).current ≠ some ([] : Record) := by
          rw [hccC]; exact hapC
        obtain ⟨hw, hst', hmode'⟩ := scanLine_step (clearChecklist (afterPrompt st)) l
          (indentOf l) st' (clearChecklist_mode (afterPrompt st)) hInv1'
          (fun hmm => hM ((isMarker_iff l).mpr hmm)) h
        refine ⟨?_, hst', hmode'⟩
        rw [hw, hccI, hccC, hapI, hapW]
        congr 1
        by_cases hmm : l.take 2 = ['-', ' '] ∧ indentOf l = 0
        · rw [if_pos hmm, if_pos ((isMarker_iff l).mpr hmm)]
        · rw [if_neg hmm, if_neg ?_]
          intro hcontra
          exact hmm ((isMarker_iff l).mp hcontra)

theorem runLines_weight :
    ∀ (ls : List Line) (st st' : PState),
      (∀ l ∈ ls, isMarker l = true → (pyStrip (l.drop 2)).contains ':' = true) →
      st.current ≠ some ([] : Record) →
      (st.checklist_mode = true → 2 ≤ st.checklist_indent) →
      runLines st ls = .ok st' →
      (st'.items.length + curWeight st'.current =
        st.items.length + curWeight st.current + countMarkers ls) ∧
      st'.current ≠ some [] := by
  intro ls
  induction ls with
  | nil =>
    intro st st' _ h1 _ h
    injection h with h'
    subst h'
    exact ⟨by simp [countMarkers], h1⟩
  | cons l ls ih =>
    intro st st' hM h1 h2 h
    rw [runLines] at h
    cases hp : processLine st l with
    | error e => rw [hp] at h; cases h
    | ok st1 =>
      rw [hp] at h
      obtain ⟨hw, hc, hm⟩ := processLine_step st l st1 h1 h2 (hM l (by simp)) hp
      obtain ⟨hw', hc'⟩ := ih st1 st' (fun m hm' => hM m (by simp [hm'])) hc hm h
      refine ⟨?_, hc'⟩
      rw [hw', hw, countMarkers_cons]
      omega

theorem finalize_length (st : PState) (hInv : st.current ≠ some ([] : Record)) :
    (finalize st).length = st.items.length + curWeight st.current := by
  rw [finalize]
  cases hcur : st.current with
  | none => simp [hcur, curWeight]
  | some r =>
    have hr : r ≠ [] := fun hnil => absurd (hnil ▸ hcur) hInv
    by_cases hcp : st.collecting_prompt
    · simp [hcur, hcp, curWeight, hr, setKey_ne_nil]
    · simp [hcur, hcp, curWeight, hr]

/-- C6 (counterexample).  A top-level marker whose record stays empty
contributes no Record: `if current:` is false for the empty dict, so the
document `["- ", "- slug: a"]` has two top-level markers but parses to one
Record. -/
theorem c6_marker_count_counterexample :
    parse_questions_yaml ["- ".toList, "- slug: a".toList] =
      .ok [[("slug".toList, Value.scalar "a".toList)]] ∧
    countMarkers ["- ".toList, "- slug: a".toList] = 2 ∧
    ([[("slug".toList, Value.scalar "a".toList)]] : List Record).length ≠
      countMarkers ["- ".toList, "- slug: a".toList] :=
  ⟨rfl, rfl, by decide⟩

/-- C6 (amended).  The number of Records equals the number of top-level
markers whose Record is non-empty when it is closed; in particular, whenever
every top-level `- ` marker line carries a `key: value` tail (a colon in its
remainder), the number of parsed Records equals the number of markers. -/
theorem c6_marker_count_amended :
    ∀ (doc : List Line) (items : List Record),
      (∀ l ∈ doc, isMarker l = true → (pyStrip (l.drop 2)).contains ':' = true) →
      parse_questions_yaml doc = .ok items →
      items.length = countMarkers doc := by
  intro doc items hM h
  rw [parse_questions_yaml] at h
  cases hr : runLines initState doc with
  | error e => rw [hr] at h; cases h
  | ok st =>
    rw [hr] at h
    injection h with h'
    subst h'
    obtain ⟨hw, hInv⟩ := runLines_weight doc initState st hM (by simp [initState])
      (by simp [initState]) hr
    rw [List.length_map, finalize_length st hInv, hw]
    simp [initState, curWeight]

/-- Closed instance of the amended C6 theorem. -/
theorem c6_marker_count_witness :
    ([[("slug".toList, Value.scalar "a".toList)]] : List Record).length =
      countMarkers ["- slug: a".toList] :=
  c6_marker_count_amended ["- slug: a".toList] [[("slug".toList, Value.scalar "a".toList)]]
    (by decide) rfl

theorem lookupKey_setKey (k k' : Line) (v : Value) :
    ∀ (r : Record), lookupKey k' (setKey r k v) =
      if k = k' then some v else lookupKey k' r := by
  intro r
  induction r with
  | nil =>
    by_cases h : k = k'
    · simp [setKey, lookupKey, h]
    · simp [setKey, lookupKey, h]
  | cons p rest ih =>
    obtain ⟨a, b⟩ := p
    by_cases h1 : a = k
    · rw [setKey, if_pos h1]
      subst h1
      by_cases h2 : a = k'
      · rw [if_pos h2, lookupKey, if_pos h2]
      · rw [if_neg h2, lookupKey, if_neg h2, lookupKey, if_neg h2]
    · rw [setKey, if_neg h1, lookupKey, ih]
      by_cases h2 : a = k'
      · have hkk : k ≠ k' := fun he => h1 (by rw [h2, he])
        rw [if_pos h2, if_neg hkk, lookupKey, if_pos h2]
      · rw [if_neg h2, lookupKey, if_neg h2]

theorem lookupKey_append (k : Line) :
    ∀ (r1 r2 : Record), lookupKey k (r1 ++ r2) =
      match lookupKey k r1 with
      | some v => some v
      | none => lookupKey k r2 := by
  intro r1 r2
  induction r1 with
  | nil => simp [lookupKey]
  | cons p rest ih =>
    obtain ⟨a, b⟩ := p
    simp only [List.cons_append, lookupKey]
    split_ifs <;> simp [ih]

/-- Any `tags` binding in the record is a Scalar (the pre-normalization
invariant). -/
def tagsScalar (r : Record) : Prop :=
  ∀ v, lookupKey tagsKey r = some v → ∃ s, v = Value.scalar s

theorem tagsScalar_nil : tagsScalar [] := by
  intro v h
  simp [lookupKey] at h

theorem tagsScalar_single (kk ss : Line) : tagsScalar [(kk, Value.scalar ss)] := by
  intro v hv
  rw [lookupKey] at hv
  by_cases h : kk = tagsKey
  · rw [if_pos h] at hv
    injection hv with h3
    exact ⟨ss, h3.symm⟩
  · rw [if_neg h, lookupKey] at hv
    cases hv

theorem tagsScalar_setKey_scalar (r : Record) (k : Line) (s : Line)
    (h : tagsScalar r) : tagsScalar (setKey r k (Value.scalar s)) := by
  intro v hv
  rw [lookupKey_setKey] at hv
  split_ifs at hv with hk
  · injection hv with h'
    exact ⟨s, h'.symm⟩
  · exact h v hv

theorem tagsScalar_setKey_of_ne (r : Record) (k : Line) (v0 : Value)
    (hne : k ≠ tagsKey) (h : tagsScalar r) : tagsScalar (setKey r k v0) := by
  intro v hv
  rw [lookupKey_setKey, if_neg hne] at hv
  exact h v hv

theorem tagsScalar_appendChecklist (r r' : Record) (item : Line)
    (h : tagsScalar r) (hap : appendChecklist r item = .ok r') : tagsScalar r' := by
  rw [appendChecklist] at hap
  cases hlk : lookupKey checklistKey r with
  | none =>
    rw [hlk] at hap
    injection hap with h2
    subst h2
    intro v hv
    rw [lookupKey_append] at hv
    cases hl : lookupKey tagsKey r with
    | some w =>
      rw [hl] at hv
      injection hv with h3
      subst h3
      exact h w hl
    | none =>
      rw [hl] at hv
      simp [lookupKey] at hv
      obtain ⟨h4, _⟩ := hv
      exact absurd h4.symm (by decide)
  | some v0 =>
    cases v0 with
    | scalar s => rw [hlk] at hap; cases hap
    | vlist ll =>
      rw [hlk] at hap
      injection hap with h2
      subst h2
      exact tagsScalar_setKey_of_ne r checklistKey _ (by decide) h

/-- The whole parser state keeps the `tags`-is-Scalar invariant. -/
def statesTagsScalar (st : PState) : Prop :=
  (∀ r ∈ st.items, tagsScalar r) ∧ (∀ r, st.current = some r → tagsScalar r)

theorem scanLine_tags (st : PState) (l : Line) (indent : Nat) (st' : PState)
    (hInv : statesTagsScalar st) (h : scanLine st l indent = .ok st') :
    statesTagsScalar st' := by
  obtain ⟨hitems, hcur⟩ := hInv
  rw [scanLine] at h
  by_cases hm : l.take 2 = ['-', ' '] ∧ indent = 0
  · rw [if_pos hm] at h
    injection h with h'
    subst h'
    constructor
    · intro r hr
      cases hc : st.current with
      | none =>
        simp only [hc] at hr
        exact hitems r hr
      | some r0 =>
        simp only [hc] at hr
        split_ifs at hr
        · rcases List.mem_append.mp hr with h1 | h1
          · exact hitems r h1
          · rw [List.mem_singleton.mp h1]
            exact hcur r0 hc
        · exact hitems r hr
    · intro r hr
      injection hr with hr'
      subst hr'
      split_ifs
      · exact tagsScalar_single _ _
      · exact tagsScalar_nil
  · rw [if_neg hm] at h
    by_cases hc : l.contains ':' = true
    · rw [if_pos hc] at h
      by_cases hv : pyStrip (splitColonLine (pyStrip l)).2 = ['|']
      · rw [if_pos hv] at h
        injection h with h'
        subst h'
        exact ⟨hitems, hcur⟩
      · rw [if_neg hv] at h
        by_cases hk : pyStrip (splitColonLine (pyStrip l)).1 = checklistKey
        · rw [if_pos hk] at h
          cases hcu : st.current with
          | none => rw [hcu] at h; cases h
          | some r =>
            simp only [hcu] at h
            injection h with h'
            subst h'
            refine ⟨hitems, ?_⟩
            intro r0 hr0
            injection hr0 with hr0'
            subst hr0'
            exact tagsScalar_setKey_of_ne r checklistKey _ (by decide) (hcur r hcu)
        · rw [if_neg hk] at h
          cases hcu : st.current with
          | none => rw [hcu] at h; cases h
          | some r =>
            simp only [hcu] at h
            injection h with h'
            subst h'
            refine ⟨hitems, ?_⟩
            intro r0 hr0
            injection hr0 with hr0'
            subst hr0'
            exact tagsScalar_setKey_scalar r _ _ (hcur r hcu)
    · rw [if_neg hc] at h
      injection h with h'
      subst h'
      exact ⟨hitems, hcur⟩

theorem afterPrompt_tags (st : PState) (hInv : statesTagsScalar st) :
    statesTagsScalar (afterPrompt st) := by
  obtain ⟨hitems, hcur⟩ := hInv
  unfold afterPrompt finishPrompt
  split
  · refine ⟨hitems, ?_⟩
    intro r hr
    cases hcu : st.current with
    | none => rw [hcu] at hr; cases hr
    | some r0 =>
      rw [hcu] at hr
      injection hr with hr'
      subst hr'
      exact tagsScalar_setKey_scalar r0 _ _ (hcur r0 hcu)
  · exact ⟨hitems, hcur⟩

theorem clearChecklist_tags (st : PState) (hInv : statesTagsScalar st) :
    statesTagsScalar (clearChecklist st) := by
  obtain ⟨hitems, hcur⟩ := hInv
  unfold clearChecklist
  split
  · exact ⟨hitems, hcur⟩
  · exact ⟨hitems, hcur⟩

theorem processLine_tags (st : PState) (l : Line) (st' : PState)
    (hInv : statesTagsScalar st) (h : processLine st l = .ok st') :
    statesTagsScalar st' := by
  rw [processLine] at h
  by_cases hsig : significant l = false
  · rw [if_pos hsig] at h
    injection h with h'
    subst h'
    exact hInv
  · rw [if_neg hsig] at h
    by_cases hbp : st.collecting_prompt = true ∧ indentOf l > st.prompt_indent
    · rw [if_pos hbp] at h
      injection h with h'
      subst h'
      exact hInv
    · rw [if_neg hbp] at h
      have hap := afterPrompt_tags st hInv
      by_cases hbl : (afterPrompt st).checklist_mode = true ∧
          (afterPrompt st).checklist_indent ≤ indentOf l ∧ (pyStrip l).take 2 = ['-', ' ']
      · rw [if_pos hbl] at h
        cases hcur : (afterPrompt st).current with
        | none => rw [hcur] at h; cases h
        | some r =>
          simp only [hcur] at h
          cases hac : appendChecklist r ((pyStrip l).drop 2) with
          | error e => simp only [hac] at h; cases h
          | ok r' =>
            simp only [hac] at h
            injection h with h'
            subst h'
            refine ⟨hap.1, ?_⟩
            intro r0 hr0
            injection hr0 with hr0'
            subst hr0'
            exact tagsScalar_appendChecklist r r' _ (hap.2 r hcur) hac
      · rw [if_neg hbl] at h
        exact scanLine_tags _ l (indentOf l) st' (clearChecklist_tags _ hap) h

theorem runLines_tags :
    ∀ (ls : List Line) (st st' : PState), statesTagsScalar st →
      runLines st ls = .ok st' → statesTagsScalar st' := by
  intro ls
  induction ls with
  | nil =>
    intro st st' hInv h
    injection h with h'
    subst h'
    exact hInv
  | cons l ls ih =>
    intro st st' hInv h
    rw [runLines] at h
    cases hp : processLine st l with
    | error e => rw [hp] at h; cases h
    | ok st1 =>
      rw [hp] at h
      exact ih st1 st' (processLine_tags st l st1 hInv hp) h

theorem finalize_tags (st : PState) (hInv : statesTagsScalar st) :
    ∀ r ∈ finalize st, tagsScalar r := by
  obtain ⟨hitems, hcur⟩ := hInv
  intro r hr
  rw [finalize] at hr
  cases hcu : st.current with
  | none =>
    simp only [hcu] at hr
    exact hitems r hr
  | some r0 =>
    simp only [hcu] at hr
    split_ifs at hr
    · rcases List.mem_append.mp hr with h1 | h1
      · exact hitems r h1
      · rw [List.mem_singleton.mp h1]
        exact tagsScalar_setKey_scalar r0 _ _ (hcur r0 hcu)
    · exact hitems r hr
    · rcases List.mem_append.mp hr with h1 | h1
      · exact hitems r h1
      · rw [List.mem_singleton.mp h1]
        exact hcur r0 hcu
    · exact hitems r hr

theorem normalizeItem_tags (r : Record) (h : tagsScalar r) :
    ∀ v, lookupKey tagsKey (normalizeItem r) = some v →
      ∃ s, v = Value.vlist (normTags s) := by
  intro v hv
  rw [normalizeItem] at hv
  cases hlk : lookupKey tagsKey r with
  | none =>
    rw [hlk] at hv
    rw [hlk] at hv
    cases hv
  | some v0 =>
    cases v0 with
    | scalar s =>
      rw [hlk] at hv
      rw [lookupKey_setKey] at hv
      rw [if_pos rfl] at hv
      injection hv with h2
      exact ⟨s, h2.symm⟩
    | vlist ll =>
      obtain ⟨s, hs⟩ := h _ hlk
      cases hs

/-- C7.  After parsing, every `tags` field in every returned Record is a List
obtained by splitting a comma-separated Scalar on commas, trimming each piece
and dropping empty pieces (`normTags`); in particular the Scalar `"a, b ,c"`
yields exactly `["a", "b", "c"]`. -/
theorem c7_tags_always_normalized :
    (∀ (doc : List Line) (items : List Record) (r : Record) (v : Value),
      parse_questions_yaml doc = .ok items → r ∈ items →
      lookupKey tagsKey r = some v → ∃ s, v = Value.vlist (normTags s)) ∧
    normTags "a, b ,c".toList = ["a".toList, "b".toList, "c".toList] := by
  refine ⟨?_, by decide⟩
  intro doc items r v hp hr hv
  rw [parse_questions_yaml] at hp
  cases hrun : runLines initState doc with
  | error e => rw [hrun] at hp; cases hp
  | ok st =>
    rw [hrun] at hp
    injection hp with hp'
    subst hp'
    obtain ⟨r0, hr0, hr0e⟩ := List.mem_map.mp hr
    have htags : statesTagsScalar st :=
      runLines_tags doc initState st ⟨by simp [initState], by simp [initState]⟩ hrun
    have := finalize_tags st htags r0 hr0
    subst hr0e
    exact normalizeItem_tags r0 this v hv

/-- Closed instance of the C7 theorem on a concrete document. -/
theorem c7_tags_always_normalized_witness :
    ∃ s, Value.vlist ["a".toList, "b".toList, "c".toList] = Value.vlist (normTags s) :=
  c7_tags_always_normalized.1 ["- tags: a, b ,c".toList]
    [[("tags".toList, Value.vlist ["a".toList, "b".toList, "c".toList])]]
    [("tags".toList, Value.vlist ["a".toList, "b".toList, "c".toList])]
    (Value.vlist ["a".toList, "b".toList, "c".toList])
    rfl (by simp) rfl

theorem runLines_insignificant :
    ∀ (pre : List Line) (st : PState), (∀ p ∈ pre, significant p = false) →
      runLines st pre = .ok st := by
  intro pre
  induction pre with
  | nil => intro st _; rfl
  | cons p pre' ih =>
    intro st hall
    rw [runLines, processLine, if_pos (hall p (by simp))]
    exact ih st (fun q hq => hall q (by simp [hq]))

/-- C10 (counterexample).  A `key: value` line occurring before the first
top-level marker need *not* raise an assertion: here `x: |` enters block-scalar
mode without asserting, and the key-value line `  y: z` is then swallowed as
block content, so the whole parse returns normally (with no records) even
though a `key: value` line occurs before any marker. -/
theorem c10_assertions_counterexample :
    parse_questions_yaml ["x: |".toList, "  y: z".toList] = .ok [] ∧
    ("  y: z".toList).contains ':' = true :=
  ⟨rfl, rfl⟩

theorem afterPrompt_current_ne_none (st : PState) (h : st.current ≠ none) :
    (afterPrompt st).current ≠ none := by
  unfold afterPrompt finishPrompt
  split
  · cases hcu : st.current with
    | none => exact absurd hcu h
    | some r => simp [hcu]
  · exact h

/-- The checklist-mode data invariant: in checklist mode the current record
holds a List under `checklist` (so `setdefault(...).append` cannot hit a
scalar). -/
def checklistOK (st : PState) : Prop :=
  st.checklist_mode = true →
    ∃ r ll, st.current = some r ∧ lookupKey checklistKey r = some (Value.vlist ll)

theorem afterPrompt_checklistOK (st : PState) (h : checklistOK st) :
    checklistOK (afterPrompt st) := by
  intro hmode
  rw [(afterPrompt_fields st).2.1] at hmode
  obtain ⟨r, ll, hcur, hlk⟩ := h hmode
  unfold afterPrompt finishPrompt
  split
  · refine ⟨setKey r promptKey (Value.scalar (flushedPrompt st.prompt_lines)), ll, ?_, ?_⟩
    · simp [hcur]
    · rw [lookupKey_setKey, if_neg (by decide)]
      exact hlk
  · exact ⟨r, ll, hcur, hlk⟩

theorem scanLine_somecurrent (st : PState) (l : Line) (indent : Nat)
    (hcur : st.current ≠ none) (hcm : st.checklist_mode = false) :
    ∃ st', scanLine st l indent = .ok st' ∧ st'.current ≠ none ∧ checklistOK st' := by
  rw [scanLine]
  by_cases hm : l.take 2 = ['-', ' '] ∧ indent = 0
  · rw [if_pos hm]
    refine ⟨_, rfl, by simp, ?_⟩
    intro hmode
    simp only at hmode
    rw [hcm] at hmode
    cases hmode
  · rw [if_neg hm]
    by_cases hc : l.contains ':' = true
    · rw [if_pos hc]
      by_cases hv : pyStrip (splitColonLine (pyStrip l)).2 = ['|']
      · rw [if_pos hv]
        refine ⟨_, rfl, hcur, ?_⟩
        intro hmode
        simp only at hmode
        rw [hcm] at hmode
        cases hmode
      · rw [if_neg hv]
        cases hcu : st.current with
        | none => exact absurd hcu hcur
        | some r =>
          by_cases hk : pyStrip (splitColonLine (pyStrip l)).1 = checklistKey
          · rw [if_pos hk]
            refine ⟨_, rfl, by simp, ?_⟩
            intro _
            refine ⟨setKey r checklistKey (Value.vlist []), [], rfl, ?_⟩
            rw [lookupKey_setKey, if_pos rfl]
          · rw [if_neg hk]
            refine ⟨_, rfl, by simp, ?_⟩
            intro hmode
            simp only at hmode
            rw [hcm] at hmode
            cases hmode
    · rw [if_neg hc]
      refine ⟨st, rfl, hcur, ?_⟩
      intro hmode
      rw [hcm] at hmode
      cases hmode

/-- A top-level marker processed from Scanning always succeeds and leaves a
record open. -/
theorem processLine_marker (st : PState) (m : Line) (hcp : st.collecting_prompt = false)
    (hcm : st.checklist_mode = false) (hmark : isMarker m = true) :
    ∃ st', processLine st m = .ok st' ∧ st'.current ≠ none ∧
      st'.checklist_mode = false := by
  obtain ⟨hm2, hm0⟩ := (isMarker_iff m).mp hmark
  rw [processLine_scanning st m hcp hcm (isMarker_significant m hmark), scanLine, hm0,
    if_pos ⟨hm2, rfl⟩]
  exact ⟨_, rfl, by simp, by simp [hcm]⟩

theorem processLine_somecurrent (st : PState) (l : Line)
    (hcur : st.current ≠ none) (hcl : checklistOK st) :
    ∃ st', processLine st l = .ok st' ∧ st'.current ≠ none ∧ checklistOK st' := by
  rw [processLine]
  by_cases hsig : significant l = false
  · rw [if_pos hsig]
    exact ⟨st, rfl, hcur, hcl⟩
  · rw [if_neg hsig]
    by_cases hbp : st.collecting_prompt = true ∧ indentOf l > st.prompt_indent
    · rw [if_pos hbp]
      refine ⟨_, rfl, hcur, ?_⟩
      intro hmode
      simp only at hmode
      obtain ⟨r, ll, hc2, hlk⟩ := hcl hmode
      exact ⟨r, ll, hc2, hlk⟩
    · rw [if_neg hbp]
      have hapN := afterPrompt_current_ne_none st hcur
      have hapC := afterPrompt_checklistOK st hcl
      by_cases hbl : (afterPrompt st).checklist_mode = true ∧
          (afterPrompt st).checklist_indent ≤ indentOf l ∧ (pyStrip l).take 2 = ['-', ' ']
      · obtain ⟨r, ll, hc2, hlk⟩ := hapC hbl.1
        rw [if_pos hbl]
        simp only [hc2]
        simp only [show appendChecklist r ((pyStrip l).drop 2) =
            .ok (setKey r checklistKey (Value.vlist (ll ++ [(pyStrip l).drop 2]))) from by
          rw [appendChecklist, hlk]]
        refine ⟨_, rfl, by simp, ?_⟩
        intro _
        refine ⟨setKey r checklistKey (Value.vlist (ll ++ [(pyStrip l).drop 2])),
          ll ++ [(pyStrip l).drop 2], by simp, ?_⟩
        rw [lookupKey_setKey, if_pos rfl]
      · rw [if_neg hbl]
        have hccN : (clearChecklist (afterPrompt st)).current ≠ none := by
          rw [(clearChecklist_same (afterPrompt st)).2]
          exact hapN
        exact scanLine_somecurrent (clearChecklist (afterPrompt st)) l (indentOf l)
          hccN (clearChecklist_mode (afterPrompt st))

theorem runLines_somecurrent :
    ∀ (ls : List Line) (st : PState), st.current ≠ none → checklistOK st →
      ∃ st', runLines st ls = .ok st' := by
  intro ls
  induction ls with
  | nil => intro st _ _; exact ⟨st, rfl⟩
  | cons l ls ih =>
    intro st hcur hcl
    obtain ⟨st1, hp, hcur1, hcl1⟩ := processLine_somecurrent st l hcur hcl
    obtain ⟨st', hrun⟩ := ih st1 hcur1 hcl1
    exact ⟨st', by rw [runLines, hp]; exact hrun⟩

theorem processLine_nocolon (st : PState) (p : Line) (hcp : st.collecting_prompt = false)
    (hcm : st.checklist_mode = false) (hnc : p.contains ':' = false) :
    ∃ st', processLine st p = .ok st' ∧ st'.collecting_prompt = false ∧
      st'.checklist_mode = false := by
  by_cases hsig : significant p = false
  · exact ⟨st, by rw [processLine, if_pos hsig], hcp, hcm⟩
  · rw [processLine_scanning st p hcp hcm (by simpa using hsig), scanLine]
    by_cases hm : p.take 2 = ['-', ' '] ∧ indentOf p = 0
    · rw [if_pos hm]
      exact ⟨_, rfl, by simp [hcp], by simp [hcm]⟩
    · rw [if_neg hm, if_neg (fun hcc => by rw [hnc] at hcc; cases hcc)]
      exact ⟨st, rfl, hcp, hcm⟩

theorem runLines_nocolon :
    ∀ (pre : List Line) (st : PState), st.collecting_prompt = false →
      st.checklist_mode = false → (∀ p ∈ pre, p.contains ':' = false) →
      ∃ st', runLines st pre = .ok st' ∧ st'.collecting_prompt = false ∧
        st'.checklist_mode = false := by
  intro pre
  induction pre with
  | nil => intro st hcp hcm _; exact ⟨st, rfl, hcp, hcm⟩
  | cons p pre' ih =>
    intro st hcp hcm hall
    obtain ⟨st1, hp, hcp1, hcm1⟩ := processLine_nocolon st p hcp hcm (hall p (by simp))
    obtain ⟨st', hrun, hcp', hcm'⟩ := ih st1 hcp1 hcm1 (fun q hq => hall q (by simp [hq]))
    exact ⟨st', by rw [runLines, hp]; exact hrun, hcp', hcm'⟩

/-- C10 (amended).  The parser is not total, but the assertion fires only for
lines reaching the *Scanning* colon rules with no record open: (i) if, after
any number of insignificant lines, the first significant line contains a
colon, is not a top-level marker, and does not declare a block scalar, parsing
raises `AssertionError`; (ii) conversely, if every colon-bearing line comes
after a first top-level marker (formally: the document splits into a
colon-free part followed by a part opened by a marker), no assertion fires and
parsing returns normally.  A `key: |` declaration or a line swallowed by an
active block scalar escapes the assertion (see the counterexample). -/
theorem c10_assertions_amended :
    (∀ (pre : List Line) (l : Line) (rest : List Line),
      (∀ p ∈ pre, significant p = false) → significant l = true →
      l.contains ':' = true → isMarker l = false →
      pyStrip (splitColonLine (pyStrip l)).2 ≠ ['|'] →
      parse_questions_yaml (pre ++ l :: rest) = .error "AssertionError") ∧
    (∀ (pre post : List Line),
      (∀ p ∈ pre, p.contains ':' = false) →
      (∀ l, post.head? = some l → isMarker l = true) →
      ∃ items, parse_questions_yaml (pre ++ post) = .ok items) := by
  constructor
  · intro pre l rest hpre hsig hcol hnm hnv
    rw [parse_questions_yaml, runLines_append, runLines_insignificant pre initState hpre]
    show (match runLines initState (l :: rest) with
          | Except.error e => Except.error e
          | Except.ok st => Except.ok ((finalize st).map normalizeItem)) = _
    have hpl : processLine initState l = .error "AssertionError" := by
      rw [processLine_scanning initState l rfl rfl hsig, scanLine]
      rw [if_neg (fun hmm => by rw [(isMarker_iff l).mpr hmm] at hnm; cases hnm)]
      rw [if_pos hcol, if_neg hnv]
      by_cases hk : pyStrip (splitColonLine (pyStrip l)).1 = checklistKey
      · rw [if_pos hk]
        rfl
      · rw [if_neg hk]
        rfl
    rw [runLines, hpl]
  · intro pre post hpre hpost
    obtain ⟨st1, hrun1, hcp1, hcm1⟩ := runLines_nocolon pre initState rfl rfl hpre
    cases post with
    | nil =>
      refine ⟨(finalize st1).map normalizeItem, ?_⟩
      rw [parse_questions_yaml, List.append_nil, hrun1]
    | cons m rest =>
      have hmark : isMarker m = true := hpost m rfl
      obtain ⟨st2, hpm, hcur2, hcm2⟩ := processLine_marker st1 m hcp1 hcm1 hmark
      obtain ⟨stF, hrunF⟩ := runLines_somecurrent rest st2 hcur2
        (fun hmode => by rw [hcm2] at hmode; cases hmode)
      have hrunAll : runLines initState (pre ++ m :: rest) = .ok stF := by
        rw [runLines_append, hrun1]
        show runLines st1 (m :: rest) = .ok stF
        rw [runLines, hpm]
        exact hrunF
      exact ⟨(finalize stF).map normalizeItem, by rw [parse_questions_yaml, hrunAll]⟩

/-- Closed instance of the amended C10 theorem: a colon line first (assertion)
and a marker-led document (normal return). -/
theorem c10_assertions_witness :
    parse_questions_yaml ([] ++ "slug: a".toList :: []) = .error "AssertionError" ∧
    ∃ items, parse_questions_yaml ([] ++ ["- slug: a".toList]) = .ok items :=
  ⟨c10_assertions_amended.1 [] "slug: a".toList [] (by simp) (by decide) (by decide)
      (by decide) (by decide),
    c10_assertions_amended.2 [] ["- slug: a".toList] (by simp)
      (by intro l hl; injection hl with h2; rw [← h2]; decide)⟩

/-- The literal package sentinel replaced during rendering. -/
def sentinel : Line := "com.learn.ood.EXERCISE_PKG".toList

/-- The fixed key `"title"`. -/
def titleKey : Line := "title".toList

/-- The fixed key `"difficulty"`. -/
def difficultyKey : Line := "difficulty".toList

/-- Python `str.title()` on ASCII text: a letter after a non-letter is
uppercased, a letter after a letter is lowercased. -/
def pyTitleGo : Bool → Line → Line
  | _, [] => []
  | prevAlpha, c :: rest =>
    (if c.isAlpha then (if prevAlpha then c.toLower else c.toUpper) else c) ::
      pyTitleGo c.isAlpha rest

/-- Python `s.title()`. -/
def pyTitle (l : Line) : Line := pyTitleGo false l

/-- The single-quote character. -/
def squote : Char := Char.ofNat 39

/-- Python `str(list_of_strings)` (quote escaping omitted: no call site of the
script reaches this branch with quote characters, or at all in any traced
run). -/
def reprList (ls : List Line) : Line :=
  '[' :: (List.intercalate ", ".toList (ls.map (fun s => squote :: (s ++ [squote])))) ++ [']']

/-- Python `str(v)` for a parsed Value. -/
def strOf (v : Value) : Line :=
  match v with
  | Value.scalar s => s
  | Value.vlist ls => reprList ls

/-- `str(meta.get("title", slug)).strip() or slug` (line 215). -/
def computeTitle (meta : Record) (slug : Line) : Line :=
  let t := pyStrip (match lookupKey titleKey meta with
    | some v => strOf v
    | none => slug)
  if t = [] then slug else t

/-- `str(meta.get("prompt", "")).strip()` (line 216). -/
def computePrompt (meta : Record) : Line :=
  pyStrip (match lookupKey promptKey meta with
    | some v => strOf v
    | none => [])

/-- Lines 217–219: `tags` list, splitting a comma-separated string. -/
def computeTags (meta : Record) : List Line :=
  match lookupKey tagsKey meta with
  | some (Value.scalar s) => normTags s
  | some (Value.vlist ls) => ls
  | none => []

/-- `", ".join(tags_list)` (line 220). -/
def computeTagsStr (meta : Record) : Line :=
  List.intercalate ", ".toList (computeTags meta)

/-- `str(meta.get("difficulty", "unknown")).strip()` (line 221). -/
def computeDifficulty (meta : Record) : Line :=
  pyStrip (match lookupKey difficultyKey meta with
    | some v => strOf v
    | none => "unknown".toList)

/-- Lines 222–224: the checklist entries, splitting a string on newlines. -/
def computeChecklist (meta : Record) : List Line :=
  match lookupKey checklistKey meta with
  | some (Value.scalar s) => ((s.splitOn '\n').map pyStrip).filter (fun t => !t.isEmpty)
  | some (Value.vlist ls) => ls
  | none => []

/-- `render_checklist_bullets(items)` from `bin/new-ex.py`. -/
def render_checklist_bullets (items : List Line) : Line :=
  List.intercalate ['\n'] (items.map (fun s => '-' :: ' ' :: s))

/-- Line 225: the `CHECKLIST` token value. -/
def computeChecklistMd (meta : Record) : Line :=
  if computeChecklist meta ≠ [] then render_checklist_bullets (computeChecklist meta)
  else "- [ ] Define your plan".toList

/-- The token mapping of `create_exercise` (lines 227–233), in dict insertion
order. -/
def tokensOf (meta : Record) (slug : Line) : List (Line × Line) :=
  [("TITLE".toList, computeTitle meta slug),
   ("PROMPT".toList, computePrompt meta),
   ("TAGS".toList, computeTagsStr meta),
   ("DIFFICULTY".toList, computeDifficulty meta),
   ("CHECKLIST".toList, computeChecklistMd meta)]

/-- Lines 238–244: token substitution followed by the package-sentinel
replacement, on one file's text. -/
def render_file_content (slug : Line) (meta : Record) (content : Line) : Line :=
  replaceAll sentinel
    ("com.learn.ood.exercises.".toList ++ slug_to_pkg_segment slug)
    (replace_tokens_in_text content (tokensOf meta slug))

/-- `Path.suffix`: the extension of the final name, empty for a dotless or
dot-initial name. -/
def pathSuffix (name : Line) : Line :=
  let after := name.reverse.takeWhile (fun c => c != '.')
  if after.length + 1 ≤ name.length then
    if after.length + 1 = name.length then []
    else '.' :: after.reverse
  else []

/-- `is_text_file(path)` from `bin/new-ex.py`, on the file's final name
segment. -/
def is_text_file (name : Line) : Bool :=
  ((pathSuffix name).map Char.toLower) ∈
    [".md".toList, ".java".toList, ".kt".toList, ".kts".toList,
     ".gradle".toList, ".txt".toList]

/-- The last segment of a path. -/
def lastSeg (p : List Line) : Line := p.getLast?.getD []

/-- `shutil.copytree(src, dest)`: every file under `src` is duplicated under
`dest` with the same relative path. -/
def copytree (fs : FS) (src dest : List Line) : FS :=
  ⟨fs.files ++ fs.files.filterMap (fun f =>
    if src.isPrefixOf f.1 then some (dest ++ f.1.drop src.length, f.2) else none)⟩

/-- The substitution walk of `create_exercise` (lines 235–248): every text
file under `dest` gets its content rendered.  (The `UnicodeDecodeError` soft
skip has no counterpart: contents in this model are always decodable.) -/
def renderAll (fs : FS) (dest : List Line) (slug : Line) (meta : Record) : FS :=
  ⟨fs.files.map (fun f =>
    if dest.isPrefixOf f.1 = true ∧ is_text_file (lastSeg f.1) = true then
      (f.1, render_file_content slug meta f.2)
    else f)⟩

/-- Relocation of the first `src/*/java/com/learn/ood/EXERCISE_PKG` run in a
path to `src/*/java/com/learn/ood/exercises/<seg>` (the effect of
`move_exercise_pkg_dirs` on each file path). -/
def remapSegs (seg : Line) : List Line → List Line
  | a :: b :: c :: d :: e :: f :: g :: rest =>
    if a = "src".toList ∧ c = "java".toList ∧ d = "com".toList ∧
        e = "learn".toList ∧ f = "ood".toList ∧ g = "EXERCISE_PKG".toList then
      a :: b :: c :: d :: e :: f :: "exercises".toList :: seg :: rest
    else a :: remapSegs seg (b :: c :: d :: e :: f :: g :: rest)
  | p => p

/-- `move_exercise_pkg_dirs(base, pkg_segment)` from `bin/new-ex.py`, as a
path rewrite on the files under `dest` (the `mkdir`/`move`/best-effort
`rmtree` sequence collapses to this in a file-set model). -/
def move_exercise_pkg_dirs (fs : FS) (dest : List Line) (seg : Line) : FS :=
  ⟨fs.files.map (fun f =>
    if dest.isPrefixOf f.1 then (dest ++ remapSegs seg (f.1.drop dest.length), f.2) else f)⟩

/-- The fallback `build.gradle.kts` content (lines 256–267). -/
def buildFileContent : Line :=
  ("plugins \x7b id(\"java\") \x7d\n\n" ++
   "dependencies \x7b\n" ++
   "  implementation(project(\":common\"))\n" ++
   "  testImplementation(platform(\"org.junit:junit-bom:5.10.2\"))\n" ++
   "  testImplementation(\"org.junit.jupiter:junit-jupiter\")\n" ++
   "\x7d\n\n" ++
   "tasks.test \x7b useJUnitPlatform() \x7d\n").toList

/-- Lines 253–267: write the fallback build file when none exists. -/
def ensureBuildFile (fs : FS) (dest : List Line) : FS :=
  if pathExists fs (dest ++ ["build.gradle.kts".toList]) then fs
  else ⟨fs.files ++ [(dest ++ ["build.gradle.kts".toList], buildFileContent)]⟩

/-- `create_exercise(slug, meta, template)` from `bin/new-ex.py`: the
file-system state is explicit, `sys.exit(code)` becomes an error value
carrying the exit code (2 with a collision suggestion, 1 for a missing
template), and the existence check precedes every write. -/
def create_exercise (fs : FS) (slug : Line) (meta : Record) (template : Line) :
    FS × Except (Nat × Line) (List Line) :=
  if pathExists fs ["exercises".toList, slug] then
    (fs, .error (2, suggest_collision_free_slug fs slug))
  else if pathExists fs ["templates".toList, template] = false then
    (fs, .error (1, template))
  else
    let dest := ["exercises".toList, slug]
    let fs1 := copytree fs ["templates".toList, template] dest
    let fs2 := renderAll fs1 dest slug meta
    let fs3 := move_exercise_pkg_dirs fs2 dest (slug_to_pkg_segment slug)
    let fs4 := ensureBuildFile fs3 dest
    (fs4, .ok dest)

/-- `args.title or <fallback>`: `None` and the empty string are falsy. -/
def pyOr (a : Option Line) (b : Line) : Line :=
  match a with
  | some s => if s ≠ [] then s else b
  | none => b

/-- The metadata dict built by `cmd_new` (lines 282–289) when
`--from-registry` is not given. -/
def cmd_new_meta (slug : Line) (argTitle argPrompt argTags argDifficulty : Option Line) :
    Record :=
  [("slug".toList, Value.scalar slug),
   ("title".toList, Value.scalar (pyOr argTitle
      (pyTitle (slug.map (fun c => if c = '-' then ' ' else c))))),
   ("prompt".toList, Value.scalar (pyOr argPrompt [])),
   ("tags".toList, Value.vlist (normTags (match argTags with | some t => t | none => []))),
   ("difficulty".toList, Value.scalar (pyOr argDifficulty "unknown".toList)),
   ("checklist".toList, Value.vlist [])]

/-- C1.  When the destination for a slug already exists, generation aborts
with exit code 2 and the deterministic collision-avoidance suggestion, and the
returned file system is exactly the input one: no file is created or modified
on the reject path (the existence check precedes every write in
`create_exercise`). -/
theorem c1_reject_path_no_writes :
    ∀ (fs : FS) (slug : Line) (meta : Record) (template : Line),
      pathExists fs ["exercises".toList, slug] = true →
      create_exercise fs slug meta template =
        (fs, .error (2, suggest_collision_free_slug fs slug)) := by
  intro fs slug meta template h
  rw [create_exercise, if_pos h]

/-- Closed instance of the C1 theorem at a concrete file system. -/
theorem c1_reject_path_no_writes_witness :
    create_exercise ⟨[(["exercises".toList, "foo".toList, "README.md".toList], "x".toList)]⟩
        "foo".toList [] "exercise-java".toList =
      (⟨[(["exercises".toList, "foo".toList, "README.md".toList], "x".toList)]⟩,
        .error (2, suggest_collision_free_slug
          ⟨[(["exercises".toList, "foo".toList, "README.md".toList], "x".toList)]⟩
          "foo".toList)) :=
  c1_reject_path_no_writes
    ⟨[(["exercises".toList, "foo".toList, "README.md".toList], "x".toList)]⟩
    "foo".toList [] "exercise-java".toList (by decide)

/-- C5.  In every rendered text file the sentinel `com.learn.ood.EXERCISE_PKG`
is replaced (one left-to-right `str.replace` pass) by
`com.learn.ood.exercises.<segment>`, where the segment drops every character
that is not a letter or digit, prefixes `x` when the result is empty or does
not start with a letter, then lowercases; in particular slug `"123-abc!"`
yields segment `"x123abc"`. -/
theorem c5_sentinel_replacement :
    (∀ (fs : FS) (dest : List Line) (slug : Line) (meta : Record)
        (p : List Line) (c : Line),
      (p, c) ∈ (renderAll fs dest slug meta).files →
      dest.isPrefixOf p = true → is_text_file (lastSeg p) = true →
      ∃ c₀, (p, c₀) ∈ fs.files ∧
        c = replaceAll sentinel
              ("com.learn.ood.exercises.".toList ++ slug_to_pkg_segment slug)
              (replace_tokens_in_text c₀ (tokensOf meta slug))) ∧
    slug_to_pkg_segment "123-abc!".toList = "x123abc".toList := by
  refine ⟨?_, by decide⟩
  intro fs dest slug meta p c hmem hpre htext
  simp only [renderAll, List.mem_map] at hmem
  obtain ⟨f, hf, heq⟩ := hmem
  by_cases hcond : dest.isPrefixOf f.1 = true ∧ is_text_file (lastSeg f.1) = true
  · rw [if_pos hcond] at heq
    have hp : f.1 = p := congrArg Prod.fst heq
    have hc : render_file_content slug meta f.2 = c := congrArg Prod.snd heq
    refine ⟨f.2, ?_, ?_⟩
    · rw [← hp]
      exact hf
    · rw [← hc]
      rfl
  · rw [if_neg hcond] at heq
    have hp : f.1 = p := congrArg Prod.fst heq
    exact absurd ⟨by rw [hp]; exact hpre, by rw [hp]; exact htext⟩ hcond

/-- Closed instance of the C5 theorem at a concrete file system. -/
theorem c5_sentinel_replacement_witness :
    ∃ c₀, (["exercises".toList, "foo".toList, "a.md".toList], c₀) ∈
        (⟨[(["exercises".toList, "foo".toList, "a.md".toList], "x".toList)]⟩ : FS).files ∧
      "x".toList = replaceAll sentinel
        ("com.learn.ood.exercises.".toList ++ slug_to_pkg_segment "foo".toList)
        (replace_tokens_in_text c₀ (tokensOf [] "foo".toList)) :=
  c5_sentinel_replacement.1
    ⟨[(["exercises".toList, "foo".toList, "a.md".toList], "x".toList)]⟩
    ["exercises".toList, "foo".toList] "foo".toList []
    ["exercises".toList, "foo".toList, "a.md".toList] "x".toList
    (by decide) (by decide) (by decide)

/-- C8 (counterexample).  The Renderer itself does *not* capitalize: when the
record lacks `title`, the `TITLE` token falls back to the slug verbatim, so
rendering `$\x7bTITLE\x7d` with slug `strategy-pattern` and no `title` yields
`strategy-pattern`, not `Strategy Pattern`. -/
theorem c8_title_fallback_counterexample :
    replace_tokens_in_text "$\x7bTITLE\x7d".toList
        (tokensOf [("slug".toList, Value.scalar "strategy-pattern".toList)]
          "strategy-pattern".toList) =
      "strategy-pattern".toList ∧
    "strategy-pattern".toList ≠ "Strategy Pattern".toList :=
  ⟨rfl, by decide⟩

/-- C8 (amended).  In `create_exercise` the `TITLE` fallback for a record
lacking `title` is the (stripped) slug itself; the word-by-word
capitalization lives in the `cmd_new` CLI path, which stores
`slug.replace("-", " ").title()` as the record's `title` when no `--title` is
given — so rendering `$\x7bTITLE\x7d` through that path with slug
`strategy-pattern` yields `Strategy Pattern`. -/
theorem c8_title_fallback_amended :
    (∀ (meta : Record) (slug : Line), lookupKey titleKey meta = none →
      computeTitle meta slug =
        (if pyStrip slug = [] then slug else pyStrip slug)) ∧
    replace_tokens_in_text "$\x7bTITLE\x7d".toList
        (tokensOf (cmd_new_meta "strategy-pattern".toList none none none none)
          "strategy-pattern".toList) =
      "Strategy Pattern".toList := by
  refine ⟨?_, rfl⟩
  intro meta slug h
  simp [computeTitle, h]

/-- Closed instance of the amended C8 theorem. -/
theorem c8_title_fallback_witness :
    computeTitle [] "strategy-pattern".toList =
      (if pyStrip "strategy-pattern".toList = [] then "strategy-pattern".toList
       else pyStrip "strategy-pattern".toList) :=
  c8_title_fallback_amended.1 [] "strategy-pattern".toList rfl

end NewEx
